import Mathlib

/-!
Verification development for the storage and transaction core of a small
relational database engine (slotted pages, buffer pool LRU, B+ tree,
redo/undo logs, recovery, lock manager, planner access-path selection).

Each Python source construct is shallowly embedded as an executable Lean
definition; machine integers are modelled as `Nat`, byte strings as
`List Nat`, fallible code returns `Except`/`Option`.
-/

namespace Imoocdb

/-! ## Byte encoding: `slotted_page.py` `uint8_to_bytes` / `bytes_to_uint8`
(8-byte little-endian unsigned integers). -/

/-- Little-endian digits base 256, `k` bytes. Mirrors `int.to_bytes(value, 8, 'little')`
for values below `256^k` (Python raises OverflowError above that bound). -/
def toBytesLE : Nat → Nat → List Nat
  | 0, _ => []
  | k + 1, n => n % 256 :: toBytesLE k (n / 256)

/-- Mirrors `int.from_bytes(buff, 'little')`. -/
def fromBytesLE (l : List Nat) : Nat :=
  l.foldr (fun b acc => b + 256 * acc) 0

def uint8_to_bytes (n : Nat) : List Nat := toBytesLE 8 n

def bytes_to_uint8 (l : List Nat) : Nat := fromBytesLE l

theorem toBytesLE_length (k n : Nat) : (toBytesLE k n).length = k := by
  induction k generalizing n with
  | zero => rfl
  | succ k ih => simp [toBytesLE, ih]

theorem fromBytesLE_toBytesLE (k n : Nat) (h : n < 256 ^ k) :
    fromBytesLE (toBytesLE k n) = n := by
  induction k generalizing n with
  | zero =>
    have hn : n = 0 := by simpa using h
    simp [toBytesLE, fromBytesLE, hn]
  | succ k ih =>
    have hdiv : n / 256 < 256 ^ k := by
      rw [Nat.div_lt_iff_lt_mul (by norm_num : 0 < 256)]
      calc n < 256 ^ (k + 1) := h
        _ = 256 ^ k * 256 := by ring
    have := ih (n / 256) hdiv
    simp only [toBytesLE, fromBytesLE, List.foldr_cons] at *
    rw [this, Nat.mod_add_div]

/-! ## Slotted page: `slotted_page.py` -/

def PAGE_SIZE : Nat := 8 * 1024

/-- `PageHeader`: five 8-byte unsigned fields. -/
structure PageHeader where
  lsn : Nat
  flags : Nat
  reserved : Nat
  free_space_start : Nat
  free_space_end : Nat
  deriving DecidableEq, Repr

/-- Fresh header, all zeros (`PageHeader.__init__`). -/
def PageHeader.init : PageHeader := ⟨0, 0, 0, 0, 0⟩

/-- `PageHeader.size()`: 5 serializable fields, 8 bytes each. -/
def PageHeader.hsize : Nat := 5 * 8

def PageHeader.serialize (h : PageHeader) : List Nat :=
  uint8_to_bytes h.lsn ++ uint8_to_bytes h.flags ++ uint8_to_bytes h.reserved ++
    uint8_to_bytes h.free_space_start ++ uint8_to_bytes h.free_space_end

/-- `BaseStructure.deserialize` for `PageHeader`; `none` when the buffer length
assertion `len(buff) == cls.size()` fails. -/
def PageHeader.deserialize (buff : List Nat) : Option PageHeader :=
  if buff.length = PageHeader.hsize then
    some ⟨bytes_to_uint8 (buff.take 8),
          bytes_to_uint8 ((buff.drop 8).take 8),
          bytes_to_uint8 ((buff.drop 16).take 8),
          bytes_to_uint8 ((buff.drop 24).take 8),
          bytes_to_uint8 ((buff.drop 32).take 8)⟩
  else none

/-- `RecordState` constants (plain ints in the source). -/
def RecordState.UNUSED : Nat := 0
def RecordState.NORMAL : Nat := 1
def RecordState.DEAD : Nat := 2

/-- `Slot`: three 8-byte unsigned fields. -/
structure Slot where
  offset : Nat
  length : Nat
  state : Nat
  deriving DecidableEq, Repr

def Slot.ssize : Nat := 3 * 8

def Slot.serialize (s : Slot) : List Nat :=
  uint8_to_bytes s.offset ++ uint8_to_bytes s.length ++ uint8_to_bytes s.state

def Slot.deserialize (buff : List Nat) : Option Slot :=
  if buff.length = Slot.ssize then
    some ⟨bytes_to_uint8 (buff.take 8),
          bytes_to_uint8 ((buff.drop 8).take 8),
          bytes_to_uint8 ((buff.drop 16).take 8)⟩
  else none

/-- `Page`: header, slot directory, record region (records held as raw bytes). -/
structure Page where
  page_header : PageHeader
  slot_directory : List Slot
  records : List Nat
  deriving DecidableEq, Repr

/-- `Page()` with a fresh header. -/
def Page.init : Page := ⟨PageHeader.init, [], []⟩

def Page.total_record_size (p : Page) : Nat := p.records.length

def Page.total_slot_directory_size (p : Page) : Nat :=
  p.slot_directory.length * Slot.ssize

/-- Error kinds raised by the storage layer. -/
inductive StorageErr where
  | pageError (msg : String)
  | lruError (msg : String)
  | assertionError
  | valueError
  | indexError
  | attributeError
  | fileNotFound
  | lockConflict (msg : String)
  | notImplementedError (msg : String)
  | fuelExhausted
  deriving DecidableEq, Repr

/-- `Page.allocate_slot`: returns `none` exactly when
`header_size + (slots+1)*slot_size + records + record >= PAGE_SIZE`. -/
def Page.allocate_slot (p : Page) (record : List Nat) : Option Slot :=
  let current_slot_num := p.slot_directory.length
  let total_slot_size := (current_slot_num + 1) * Slot.ssize
  let total_record_size := p.total_record_size + record.length
  let total_page_size := PageHeader.hsize + total_slot_size + total_record_size
  if total_page_size ≥ PAGE_SIZE then none
  else some ⟨p.total_record_size, record.length, RecordState.UNUSED⟩

/-- `Page.set_header(lsn)`. -/
def Page.set_header (p : Page) (lsn : Nat) : Page :=
  { p with page_header :=
      { p.page_header with
          lsn := lsn
          free_space_start := PageHeader.hsize + p.total_slot_directory_size
          free_space_end := PAGE_SIZE - p.records.length } }

/-- `Page.insert(record)`: appends the record and a NORMAL slot, returns the
new page and the slot index; `PageError` when `allocate_slot` fails. -/
def Page.insert (p : Page) (record : List Nat) : Except StorageErr (Page × Nat) :=
  match p.allocate_slot record with
  | none => .error (.pageError "out of space in the page.")
  | some slot =>
      let slot := { slot with state := RecordState.NORMAL }
      .ok ({ p with slot_directory := p.slot_directory ++ [slot],
                    records := p.records ++ record },
           p.slot_directory.length)

/-- `Page.delete(sid)`: tombstone; `PageError` on invalid sid. -/
def Page.delete (p : Page) (sid : Nat) : Except StorageErr Page :=
  if h : sid < p.slot_directory.length then
    let slot := p.slot_directory.get ⟨sid, h⟩
    .ok { p with slot_directory :=
            p.slot_directory.set sid { slot with state := RecordState.DEAD } }
  else .error (.pageError "invalid sid.")

/-- `Page.select(sid)`: bytes of the record; empty for non-NORMAL; `PageError`
on invalid sid. -/
def Page.select (p : Page) (sid : Nat) : Except StorageErr (List Nat) :=
  if h : sid < p.slot_directory.length then
    let slot := p.slot_directory.get ⟨sid, h⟩
    if slot.state ≠ RecordState.NORMAL then .ok []
    else .ok ((p.records.drop slot.offset).take slot.length)
  else .error (.pageError "invalid sid.")

/-- Python slice assignment `l[off:off+r.length] = r`. -/
def listSplice (l : List Nat) (off : Nat) (r : List Nat) : List Nat :=
  l.take off ++ r ++ l.drop (off + r.length)

/-- `Page.update(sid, record)`: in-place overwrite when the new record fits in
the slot, else tombstone + re-insert (restoring the slot state when the
insert fails, and re-raising). `sid` out of range raises (IndexError). -/
def Page.update (p : Page) (sid : Nat) (record : List Nat) :
    Except StorageErr (Page × Nat) :=
  if h : sid < p.slot_directory.length then
    let slot := p.slot_directory.get ⟨sid, h⟩
    if record.length ≤ slot.length then
      .ok ({ p with records := listSplice p.records slot.offset record,
                    slot_directory := p.slot_directory.set sid
                      { slot with length := record.length,
                                  state := RecordState.NORMAL } },
           sid)
    else
      match p.delete sid with
      | .error e => .error e
      | .ok p' =>
        match p'.insert record with
        | .error e => .error e   -- slot state restored: page discarded, caller keeps `p`
        | .ok (p'', new_sid) => .ok (p'', new_sid)
  else .error .indexError

/-- Helper: whether an `Except` computation succeeded. -/
def isOk : Except StorageErr α → Bool
  | .ok _ => true
  | .error _ => false

/-- `Page.serialize`: header bytes, slot bytes, `free_space_size` zero bytes,
record bytes. `none` when the page-size assertion fails (the assertion is on
Python ints, so the free-space difference is computed in `Int`), or when the
free-space size is negative (`bytes(negative)` raises). -/
def Page.serialize (p : Page) : Option (List Nat) :=
  if (PAGE_SIZE : Int) = PageHeader.hsize + p.total_slot_directory_size +
      ((p.page_header.free_space_end : Int) - p.page_header.free_space_start) +
      p.total_record_size then
    if p.page_header.free_space_start ≤ p.page_header.free_space_end then
      some (p.page_header.serialize ++
        (p.slot_directory.map Slot.serialize).flatten ++
        List.replicate (p.page_header.free_space_end - p.page_header.free_space_start) 0 ++
        p.records)
    else none
  else none

/-- Python `range(start, stop, step)` for a positive step: the offsets
visited by the slot-directory read loop. -/
def pyRange (start stop step : Nat) : List Nat :=
  (List.range ((stop - start + step - 1) / step)).map (fun i => start + step * i)

/-- Body of the slot-directory read loop of `Page.deserialize`, one slot per
visited offset. -/
def readSlotsGo (buff : List Nat) : List Nat → Option (List Slot)
  | [] => some []
  | off :: restOffs =>
    match Slot.deserialize ((buff.drop off).take Slot.ssize) with
    | none => none
    | some s =>
      match readSlotsGo buff restOffs with
      | none => none
      | some rest => some (s :: rest)

/-- The slot-directory read loop of `Page.deserialize`:
`for slot_offset in range(header.size(), header.free_space_start, Slot.size())`. -/
def readSlots (buff : List Nat) (off stop : Nat) : Option (List Slot) :=
  readSlotsGo buff (pyRange off stop Slot.ssize)

theorem pyRange_empty (start stop : Nat) (h : ¬ start < stop) :
    pyRange start stop Slot.ssize = [] := by
  unfold pyRange
  have : (stop - start + Slot.ssize - 1) / Slot.ssize = 0 := by
    simp only [Slot.ssize]
    omega
  rw [this]
  simp

theorem pyRange_cons (start stop : Nat) (h : start < stop) :
    pyRange start stop Slot.ssize =
      start :: pyRange (start + Slot.ssize) stop Slot.ssize := by
  unfold pyRange
  have hn : (stop - start + Slot.ssize - 1) / Slot.ssize =
      (stop - (start + Slot.ssize) + Slot.ssize - 1) / Slot.ssize + 1 := by
    simp only [Slot.ssize]
    omega
  rw [hn, List.range_succ_eq_map]
  simp only [List.map_cons, List.map_map, Nat.mul_zero, Nat.add_zero]
  congr 1
  apply List.map_congr_left
  intro a ha
  simp only [Function.comp_apply, Nat.succ_eq_add_one]
  ring

/-- `Page.deserialize(buff)`. -/
def Page.deserialize (buff : List Nat) : Option Page := do
  let header ← PageHeader.deserialize (buff.take PageHeader.hsize)
  let slots ← readSlots buff PageHeader.hsize header.free_space_start
  pure ⟨header, slots, buff.drop header.free_space_end⟩

/-! ## Claim C4: `Page.insert` full check and success behaviour -/

/-- C4 counterexample: the claim says `insert` fails iff header size plus the
enlarged slot directory plus the enlarged record region would *exceed* the
page size.  For a 8128-byte record on an empty page the total is exactly
`PAGE_SIZE` (8192), which does not exceed it, yet `Page.insert` fails (the
source guard is `total_page_size >= PAGE_SIZE`). -/
theorem C4_counterexample :
    isOk (Page.init.insert (List.replicate 8128 7)) = false ∧
    PageHeader.hsize + (Page.init.slot_directory.length + 1) * Slot.ssize +
      Page.init.records.length + (List.replicate 8128 7).length = PAGE_SIZE := by
  have hlen : (List.replicate 8128 7).length = 8128 := List.length_replicate 8128 7
  constructor
  · unfold Page.insert Page.allocate_slot Page.total_record_size
    rw [if_pos]
    · rfl
    · simp only [Page.init, List.length_nil, hlen, ge_iff_le,
        PageHeader.hsize, Slot.ssize, PAGE_SIZE]
      try norm_num
  · simp only [Page.init, List.length_nil, hlen,
      PageHeader.hsize, Slot.ssize, PAGE_SIZE]
    try norm_num

/-- C4 (amended): `Page.insert` fails, with the page-full error, iff
header size + the enlarged slot directory + the enlarged record region would
*equal or exceed* the fixed page size; on success it appends the record at the
end of the record region, appends a NORMAL slot pointing to it, and returns
the index of that new slot.  (In this pure embedding a failing insert returns
only the error, so no page state mutates on failure by construction.) -/
theorem C4_insert_full_iff (p : Page) (r : List Nat) :
    (p.insert r = .error (.pageError "out of space in the page.") ↔
      PAGE_SIZE ≤ PageHeader.hsize + (p.slot_directory.length + 1) * Slot.ssize +
        p.records.length + r.length) ∧
    (PageHeader.hsize + (p.slot_directory.length + 1) * Slot.ssize +
        p.records.length + r.length < PAGE_SIZE →
      p.insert r = .ok ({ p with
          slot_directory := p.slot_directory ++
            [⟨p.records.length, r.length, RecordState.NORMAL⟩],
          records := p.records ++ r }, p.slot_directory.length)) := by
  unfold Page.insert Page.allocate_slot Page.total_record_size
  constructor
  · by_cases hfull : PAGE_SIZE ≤ PageHeader.hsize +
        (p.slot_directory.length + 1) * Slot.ssize + p.records.length + r.length
    · simp only [ge_iff_le]
      rw [if_pos (by omega)]
      simpa using hfull
    · simp only [ge_iff_le]
      rw [if_neg (by omega)]
      simp
      omega
  · intro hlt
    simp only [ge_iff_le]
    rw [if_neg (by omega)]

/-- Witness for the amended C4 theorem at a concrete input. -/
theorem C4_insert_full_iff_witness :
    Page.init.insert [7] = .ok ({ Page.init with
        slot_directory := [⟨0, 1, RecordState.NORMAL⟩],
        records := [7] }, 0) := by
  have h := (C4_insert_full_iff Page.init [7]).2 (by
    simp [Page.init, PageHeader.hsize, Slot.ssize, PAGE_SIZE])
  simpa [Page.init] using h

/-! ## Claim C5: operation sequences on a page, and the serialize/deserialize
round trip.  `applyOpG` applies one `insert`/`delete`/`update` call; a call
that raises `PageError` leaves the page as it was (in the source, `update`'s
compound path restores the slot state before re-raising, and `insert` fails
before mutating).  The ghost list records, per slot, the bytes last written
into that slot. -/

inductive PageOp where
  | ins (r : List Nat)
  | del (sid : Nat)
  | upd (sid : Nat) (r : List Nat)

def applyOpG : Page × List (List Nat) → PageOp → Page × List (List Nat)
  | (p, g), .ins r =>
    match p.insert r with
    | .ok (p', _) => (p', g ++ [r])
    | .error _ => (p, g)
  | (p, g), .del sid =>
    match p.delete sid with
    | .ok p' => (p', g)
    | .error _ => (p, g)
  | (p, g), .upd sid r =>
    match p.update sid r with
    | .ok (p', retSid) => (p', if retSid = sid then g.set sid r else g ++ [r])
    | .error _ => (p, g)

def applyOpsG (st : Page × List (List Nat)) (ops : List PageOp) :
    Page × List (List Nat) :=
  ops.foldl applyOpG st

/-- Slicing stays inside the left part of an append. -/
theorem slice_append_left (l r : List Nat) (off len : Nat) (h : off + len ≤ l.length) :
    ((l ++ r).drop off).take len = (l.drop off).take len := by
  rw [List.drop_append_of_le_length (by omega)]
  rw [List.take_append_of_le_length (by simp; omega)]

/-- Slicing exactly the appended part. -/
theorem slice_append_right (l r : List Nat) :
    ((l ++ r).drop l.length).take r.length = r := by
  rw [List.drop_left, List.take_length]

theorem listSplice_length (l r : List Nat) (off : Nat) (h : off + r.length ≤ l.length) :
    (listSplice l off r).length = l.length := by
  simp [listSplice]
  omega

/-- Dropping exactly the length of the left part of an append. -/
theorem drop_append_exact (x y : List Nat) (n : Nat) (h : x.length = n) :
    (x ++ y).drop n = y := by subst h; exact List.drop_left x y

/-- Taking exactly the length of the left part of an append. -/
theorem take_append_exact (x y : List Nat) (n : Nat) (h : x.length = n) :
    (x ++ y).take n = x := by subst h; exact List.take_left x y

/-- Slicing the spliced-in range returns the new bytes. -/
theorem slice_splice_eq (l r : List Nat) (off : Nat) (h : off ≤ l.length) :
    ((listSplice l off r).drop off).take r.length = r := by
  unfold listSplice
  rw [List.append_assoc, drop_append_exact _ _ _ (by simp; omega),
    take_append_exact _ _ _ rfl]

/-- Slicing a range disjoint from the spliced range is unchanged. -/
theorem slice_splice_ne (l r : List Nat) (off a b : Nat)
    (hin : a + b ≤ l.length) (hsp : off + r.length ≤ l.length)
    (hdis : a + b ≤ off ∨ off + r.length ≤ a) :
    ((listSplice l off r).drop a).take b = (l.drop a).take b := by
  unfold listSplice
  rcases hdis with hlt | hgt
  · -- entirely left of the splice point
    rw [List.append_assoc]
    rw [slice_append_left _ _ a b (by simp; omega)]
    rw [List.drop_take, List.take_take, Nat.min_eq_left (by omega)]
  · -- entirely right of the spliced range
    have hlen : (l.take off ++ r).length = off + r.length := by simp; omega
    have ha : a = (l.take off ++ r).length + (a - (off + r.length)) := by omega
    rw [ha, List.drop_append, List.drop_drop]
    congr 3
    omega

theorem getD_lt (l : List (List Nat)) (n : Nat) (h : n < l.length) :
    l.getD n [] = l[n] := by
  rw [List.getD_eq_getElem?_getD, List.getElem?_eq_getElem h]; rfl

theorem mem_of_set (a : Slot) (l : List Slot) (n : Nat) (b : Slot)
    (hm : a ∈ l.set n b) : a ∈ l ∨ a = b := by
  rw [List.mem_iff_getElem] at hm
  obtain ⟨i, hi, hget⟩ := hm
  by_cases hin : i = n
  · subst hin
    right
    rw [List.getElem_set_self (by simpa using hi)] at hget
    exact hget.symm
  · left
    rw [List.getElem_set_ne (by omega)] at hget
    exact hget ▸ List.getElem_mem _

/-- Total slot access: slot at index `i`, defaulting to a zero slot. -/
def sAt (l : List Slot) (i : Nat) : Slot := l.getD i (Slot.mk 0 0 0)

theorem sAt_lt (l : List Slot) (i : Nat) (h : i < l.length) :
    sAt l i = l.get ⟨i, h⟩ := by
  simp [sAt, List.getD_eq_getElem?_getD, List.getElem?_eq_getElem h,
    List.get_eq_getElem]

theorem sAt_mem (l : List Slot) (i : Nat) (h : i < l.length) : sAt l i ∈ l := by
  rw [sAt_lt l i h, List.get_eq_getElem]
  exact List.getElem_mem h

theorem sAt_append_left (l r : List Slot) (i : Nat) (h : i < l.length) :
    sAt (l ++ r) i = sAt l i := by
  unfold sAt
  exact List.getD_append _ _ _ _ h

theorem sAt_concat_self (l : List Slot) (b : Slot) : sAt (l ++ [b]) l.length = b := by
  unfold sAt
  rw [List.getD_append_right _ _ _ _ (le_refl _), Nat.sub_self]
  rfl

theorem sAt_set_self (l : List Slot) (n : Nat) (b : Slot) (h : n < l.length) :
    sAt (l.set n b) n = b := by
  rw [sAt_lt _ _ (by simpa using h), List.get_eq_getElem,
    List.getElem_set_self (by simpa using h)]

theorem sAt_set_ne (l : List Slot) (n : Nat) (b : Slot) (i : Nat) (h : i ≠ n) :
    sAt (l.set n b) i = sAt l i := by
  unfold sAt
  rw [List.getD_eq_getElem?_getD, List.getD_eq_getElem?_getD,
    List.getElem?_set_ne (fun hc => h hc.symm)]

theorem getD_set_self (l : List (List Nat)) (n : Nat) (r : List Nat)
    (h : n < l.length) : (l.set n r).getD n [] = r := by
  rw [getD_lt _ _ (by simpa using h), List.getElem_set_self (by simpa using h)]

theorem getD_set_ne (l : List (List Nat)) (n : Nat) (r : List Nat) (i : Nat)
    (h : i ≠ n) : (l.set n r).getD i [] = l.getD i [] := by
  rw [List.getD_eq_getElem?_getD, List.getD_eq_getElem?_getD,
    List.getElem?_set_ne (fun hc => h hc.symm)]

/-- Invariant carried by every page reachable from `Page.init` through
`insert`/`delete`/`update`, together with its ghost slot contents (the bytes
last written into each slot). -/
structure PageInv (p : Page) (g : List (List Nat)) : Prop where
  header_init : p.page_header = PageHeader.init
  size_ok : PageHeader.hsize + p.slot_directory.length * Slot.ssize +
    p.records.length ≤ PAGE_SIZE
  slot_bound : ∀ s ∈ p.slot_directory, s.offset + s.length ≤ p.records.length
  state_small : ∀ s ∈ p.slot_directory, s.state ≤ 2
  ghost_len : g.length = p.slot_directory.length
  disj : ∀ i j, i < p.slot_directory.length → j < p.slot_directory.length →
    i ≠ j →
    (sAt p.slot_directory i).offset + (sAt p.slot_directory i).length ≤
      (sAt p.slot_directory j).offset ∨
    (sAt p.slot_directory j).offset + (sAt p.slot_directory j).length ≤
      (sAt p.slot_directory i).offset
  ghost_sel : ∀ i, i < p.slot_directory.length →
    (sAt p.slot_directory i).state = RecordState.NORMAL →
    (p.records.drop (sAt p.slot_directory i).offset).take
      (sAt p.slot_directory i).length = g.getD i []

theorem pageInv_init : PageInv Page.init [] := by
  refine ⟨rfl, ?_, ?_, ?_, rfl, ?_, ?_⟩ <;>
    simp [Page.init, PageHeader.hsize, Slot.ssize, PAGE_SIZE]

/-- `insert` preserves the invariant, the new ghost entry being the record. -/
theorem pageInv_insert (p : Page) (g : List (List Nat)) (r : List Nat)
    (hinv : PageInv p g) (p' : Page) (sid : Nat)
    (hok : p.insert r = .ok (p', sid)) :
    PageInv p' (g ++ [r]) := by
  unfold Page.insert Page.allocate_slot Page.total_record_size at hok
  simp only [ge_iff_le] at hok
  by_cases hfull : PAGE_SIZE ≤ PageHeader.hsize +
      (p.slot_directory.length + 1) * Slot.ssize + (p.records.length + r.length)
  · rw [if_pos hfull] at hok; exact absurd hok (by simp)
  · rw [if_neg hfull] at hok
    simp only [Except.ok.injEq, Prod.mk.injEq] at hok
    obtain ⟨hp', _⟩ := hok
    subst hp'
    push_neg at hfull
    simp only [PageHeader.hsize, Slot.ssize, PAGE_SIZE] at hfull
    have hlen : ∀ s ∈ p.slot_directory, s.offset + s.length ≤ p.records.length :=
      hinv.slot_bound
    have hgl := hinv.ghost_len
    refine ⟨hinv.header_init, ?_, ?_, ?_, ?_, ?_, ?_⟩
    · simp only [List.length_append, List.length_cons, List.length_nil,
        PageHeader.hsize, Slot.ssize, PAGE_SIZE]
      omega
    · intro s hs
      simp only [List.mem_append, List.mem_singleton] at hs
      rcases hs with hs | hs
      · have := hlen s hs
        simp only [List.length_append]
        omega
      · subst hs
        simp
    · intro s hs
      simp only [List.mem_append, List.mem_singleton] at hs
      rcases hs with hs | hs
      · exact hinv.state_small s hs
      · subst hs; simp [RecordState.NORMAL]
    · simp [hinv.ghost_len]
    · intro i j hi hj hne
      simp only [List.length_append, List.length_cons, List.length_nil] at hi hj
      by_cases hi' : i < p.slot_directory.length
      · by_cases hj' : j < p.slot_directory.length
        · rw [sAt_append_left _ _ _ hi', sAt_append_left _ _ _ hj']
          exact hinv.disj i j hi' hj' hne
        · have hjv : j = p.slot_directory.length := by omega
          subst hjv
          rw [sAt_append_left _ _ _ hi', sAt_concat_self]
          left
          simpa using hlen _ (sAt_mem _ _ hi')
      · have hiv : i = p.slot_directory.length := by omega
        subst hiv
        have hj' : j < p.slot_directory.length := by omega
        rw [sAt_append_left _ _ _ hj', sAt_concat_self]
        right
        simpa using hlen _ (sAt_mem _ _ hj')
    · intro i hi hnorm
      simp only [List.length_append, List.length_cons, List.length_nil] at hi
      by_cases hi' : i < p.slot_directory.length
      · rw [sAt_append_left _ _ _ hi'] at hnorm ⊢
        have hb := hlen _ (sAt_mem _ _ hi')
        rw [slice_append_left _ _ _ _ (by omega)]
        rw [hinv.ghost_sel i hi' hnorm]
        exact (List.getD_append _ _ _ _ (by omega)).symm
      · have hiv : i = p.slot_directory.length := by omega
        subst hiv
        rw [sAt_concat_self]
        rw [List.getD_append_right _ _ _ _ (by omega)]
        have h1 : p.slot_directory.length - g.length = 0 := by omega
        rw [h1]
        simp [slice_append_right]

/-- Overwriting the slot at `sid` with a dead slot covering the same region
(the `delete` tombstone) preserves the invariant. -/
theorem pageInv_set_dead (p : Page) (g : List (List Nat)) (sid : Nat)
    (hinv : PageInv p g) (hs : sid < p.slot_directory.length) (b : Slot)
    (hoff : b.offset = (sAt p.slot_directory sid).offset)
    (hlenb : b.length = (sAt p.slot_directory sid).length)
    (hstate : b.state = RecordState.DEAD) :
    PageInv { p with slot_directory := p.slot_directory.set sid b } g := by
  have hbmem := hinv.slot_bound _ (sAt_mem _ _ hs)
  refine ⟨hinv.header_init, ?_, ?_, ?_, ?_, ?_, ?_⟩
  · simpa using hinv.size_ok
  · intro s hsm
    rcases mem_of_set _ _ _ _ hsm with hsm | hsm
    · exact hinv.slot_bound s hsm
    · subst hsm
      simp only [hoff, hlenb]
      exact hbmem
  · intro s hsm
    rcases mem_of_set _ _ _ _ hsm with hsm | hsm
    · exact hinv.state_small s hsm
    · subst hsm; simp [hstate, RecordState.DEAD]
  · simpa using hinv.ghost_len
  · intro i j hi hj hne
    simp only [List.length_set] at hi hj
    have key : ∀ k, k < p.slot_directory.length →
        (sAt (p.slot_directory.set sid b) k).offset = (sAt p.slot_directory k).offset ∧
        (sAt (p.slot_directory.set sid b) k).length = (sAt p.slot_directory k).length := by
      intro k hk
      by_cases hksid : k = sid
      · subst hksid
        rw [sAt_set_self _ _ _ hk]
        exact ⟨hoff, hlenb⟩
      · rw [sAt_set_ne _ _ _ _ hksid]
        exact ⟨rfl, rfl⟩
    obtain ⟨hio, hil⟩ := key i hi
    obtain ⟨hjo, hjl⟩ := key j hj
    rw [hio, hil, hjo, hjl]
    exact hinv.disj i j hi hj hne
  · intro i hi hnorm
    simp only [List.length_set] at hi
    by_cases hisid : i = sid
    · subst hisid
      rw [sAt_set_self _ _ _ hi] at hnorm
      rw [hstate] at hnorm
      simp [RecordState.DEAD, RecordState.NORMAL] at hnorm
    · rw [sAt_set_ne _ _ _ _ hisid] at hnorm ⊢
      exact hinv.ghost_sel i hi hnorm

/-- The in-place branch of `update` preserves the invariant: the slot keeps
its offset, shrinks to the new record's length, and the spliced bytes become
the slot's contents. -/
theorem pageInv_inplace (p : Page) (g : List (List Nat)) (sid : Nat)
    (r : List Nat) (hinv : PageInv p g) (hs : sid < p.slot_directory.length)
    (hfit : r.length ≤ (sAt p.slot_directory sid).length) (b : Slot)
    (hoff : b.offset = (sAt p.slot_directory sid).offset)
    (hlenb : b.length = r.length)
    (hstate : b.state = RecordState.NORMAL) :
    PageInv { p with
        records := listSplice p.records (sAt p.slot_directory sid).offset r,
        slot_directory := p.slot_directory.set sid b } (g.set sid r) := by
  have hbd := hinv.slot_bound _ (sAt_mem _ _ hs)
  have hgl := hinv.ghost_len
  have hreclen : (listSplice p.records (sAt p.slot_directory sid).offset r).length =
      p.records.length := listSplice_length _ _ _ (by omega)
  refine ⟨hinv.header_init, ?_, ?_, ?_, ?_, ?_, ?_⟩
  · simpa [hreclen] using hinv.size_ok
  · intro s hsm
    simp only [hreclen]
    rcases mem_of_set _ _ _ _ hsm with hsm | hsm
    · exact hinv.slot_bound s hsm
    · subst hsm
      simp only [hoff, hlenb]
      omega
  · intro s hsm
    rcases mem_of_set _ _ _ _ hsm with hsm | hsm
    · exact hinv.state_small s hsm
    · subst hsm; simp [hstate, RecordState.NORMAL]
  · simpa using hgl
  · intro i j hi hj hne
    simp only [List.length_set] at hi hj
    have key : ∀ k, k < p.slot_directory.length →
        (sAt (p.slot_directory.set sid b) k).offset = (sAt p.slot_directory k).offset ∧
        (sAt (p.slot_directory.set sid b) k).length ≤ (sAt p.slot_directory k).length := by
      intro k hk
      by_cases hksid : k = sid
      · subst hksid
        rw [sAt_set_self _ _ _ hk]
        exact ⟨hoff, by omega⟩
      · rw [sAt_set_ne _ _ _ _ hksid]
        exact ⟨rfl, le_refl _⟩
    obtain ⟨hio, hil⟩ := key i hi
    obtain ⟨hjo, hjl⟩ := key j hj
    have := hinv.disj i j hi hj hne
    dsimp only
    rw [hio, hjo]
    omega
  · intro i hi hnorm
    dsimp only at hi hnorm ⊢
    simp only [List.length_set] at hi
    by_cases hisid : i = sid
    · subst hisid
      rw [sAt_set_self _ _ _ hi] at hnorm ⊢
      rw [hoff, hlenb]
      rw [slice_splice_eq _ _ _ (by omega)]
      exact (getD_set_self _ _ _ (by omega)).symm
    · rw [sAt_set_ne _ _ _ _ hisid] at hnorm ⊢
      have hbi := hinv.slot_bound _ (sAt_mem _ _ hi)
      have hdisj := hinv.disj i sid hi hs hisid
      rw [slice_splice_ne _ _ _ _ _ (by omega) (by omega) (by omega)]
      rw [hinv.ghost_sel i hi hnorm]
      exact (getD_set_ne _ _ _ _ hisid).symm

/-- `delete` preserves the invariant (the ghost is untouched: the slot is
only tombstoned). -/
theorem pageInv_delete (p : Page) (g : List (List Nat)) (sid : Nat)
    (hinv : PageInv p g) (p' : Page) (hok : p.delete sid = .ok p') :
    PageInv p' g := by
  unfold Page.delete at hok
  by_cases hs : sid < p.slot_directory.length
  · rw [dif_pos hs] at hok
    simp only [Except.ok.injEq] at hok
    subst hok
    exact pageInv_set_dead p g sid hinv hs _
      (by rw [sAt_lt _ _ hs]) (by rw [sAt_lt _ _ hs]) rfl
  · rw [dif_neg hs] at hok
    exact absurd hok (by simp)

/-- `update` preserves the invariant: the ghost entry for the slot is replaced
in place when the new record fits, otherwise the old slot dies and a fresh
slot carries the record. -/
theorem pageInv_update (p : Page) (g : List (List Nat)) (sid : Nat)
    (r : List Nat) (hinv : PageInv p g) (p' : Page) (retSid : Nat)
    (hok : p.update sid r = .ok (p', retSid)) :
    PageInv p' (if retSid = sid then g.set sid r else g ++ [r]) := by
  unfold Page.update at hok
  by_cases hs : sid < p.slot_directory.length
  swap
  · rw [dif_neg hs] at hok
    exact absurd hok (by simp)
  rw [dif_pos hs] at hok
  by_cases hfit : r.length ≤ (p.slot_directory.get ⟨sid, hs⟩).length
  · -- in-place overwrite
    rw [if_pos hfit] at hok
    simp only [Except.ok.injEq, Prod.mk.injEq] at hok
    obtain ⟨hp', hret⟩ := hok
    subst hp'
    rw [if_pos hret.symm]
    have hgs : p.slot_directory.get ⟨sid, hs⟩ = sAt p.slot_directory sid :=
      (sAt_lt _ _ hs).symm
    rw [hgs] at hfit
    have hres := pageInv_inplace p g sid r hinv hs hfit
      (Slot.mk (sAt p.slot_directory sid).offset r.length RecordState.NORMAL)
      rfl rfl rfl
    rw [hgs]
    exact hres
  · -- tombstone + re-insert
    rw [if_neg hfit] at hok
    rcases hdel : p.delete sid with e | pd
    · simp [hdel] at hok
    simp only [hdel] at hok
    rcases hins : pd.insert r with e | pr
    · simp [hins] at hok
    obtain ⟨p'', new_sid⟩ := pr
    simp only [hins, Except.ok.injEq, Prod.mk.injEq] at hok
    obtain ⟨hp', hret⟩ := hok
    subst hp'
    have hdinv := pageInv_delete p g sid hinv pd hdel
    have hiinv := pageInv_insert pd g r hdinv p'' new_sid hins
    have hretne : retSid ≠ sid := by
      -- the re-insert returns the index of a fresh slot, past the old ones
      unfold Page.insert at hins
      rcases halloc : pd.allocate_slot r with _ | slot
      · rw [halloc] at hins; exact absurd hins (by simp)
      · rw [halloc] at hins
        simp only [Except.ok.injEq, Prod.mk.injEq] at hins
        have hlen : pd.slot_directory.length = p.slot_directory.length := by
          unfold Page.delete at hdel
          rw [dif_pos hs] at hdel
          simp only [Except.ok.injEq] at hdel
          subst hdel
          simp
        omega
    rw [if_neg hretne]
    exact hiinv


theorem uint8_length (n : Nat) : (uint8_to_bytes n).length = 8 :=
  toBytesLE_length 8 n

theorem uint8_roundtrip (n : Nat) (h : n < 2 ^ 64) :
    bytes_to_uint8 (uint8_to_bytes n) = n :=
  fromBytesLE_toBytesLE 8 n (by norm_num at h ⊢; exact h)

theorem drop_chunk8 (a X : List Nat) (n : Nat) (h : a.length = 8) :
    (a ++ X).drop (8 + n) = X.drop n := by
  rw [show 8 + n = a.length + n by rw [h]]
  exact List.drop_append n

theorem take_chunk8 (a X : List Nat) (h : a.length = 8) : (a ++ X).take 8 = a :=
  take_append_exact a X 8 h

theorem drop8_chunk (a X : List Nat) (h : a.length = 8) : (a ++ X).drop 8 = X :=
  drop_append_exact a X 8 h

theorem PageHeader.header_roundtrip (h : PageHeader) (h1 : h.lsn < 2 ^ 64)
    (h2 : h.flags < 2 ^ 64) (h3 : h.reserved < 2 ^ 64)
    (h4 : h.free_space_start < 2 ^ 64) (h5 : h.free_space_end < 2 ^ 64) :
    PageHeader.deserialize h.serialize = some h := by
  unfold PageHeader.deserialize PageHeader.serialize
  rw [if_pos (by simp [uint8_length, PageHeader.hsize])]
  simp only [List.append_assoc]
  set b1 := uint8_to_bytes h.lsn with hb1
  set b2 := uint8_to_bytes h.flags with hb2
  set b3 := uint8_to_bytes h.reserved with hb3
  set b4 := uint8_to_bytes h.free_space_start with hb4
  set b5 := uint8_to_bytes h.free_space_end with hb5
  have l1 : b1.length = 8 := uint8_length _
  have l2 : b2.length = 8 := uint8_length _
  have l3 : b3.length = 8 := uint8_length _
  have l4 : b4.length = 8 := uint8_length _
  have l5 : b5.length = 8 := uint8_length _
  have e8 : (b1 ++ (b2 ++ (b3 ++ (b4 ++ b5)))).drop 8 = b2 ++ (b3 ++ (b4 ++ b5)) :=
    drop8_chunk _ _ l1
  have e16 : (b1 ++ (b2 ++ (b3 ++ (b4 ++ b5)))).drop 16 = b3 ++ (b4 ++ b5) := by
    rw [show (16 : Nat) = 8 + 8 from rfl, drop_chunk8 _ _ _ l1, drop8_chunk _ _ l2]
  have e24 : (b1 ++ (b2 ++ (b3 ++ (b4 ++ b5)))).drop 24 = b4 ++ b5 := by
    rw [show (24 : Nat) = 8 + 16 from rfl, drop_chunk8 _ _ _ l1,
      show (16 : Nat) = 8 + 8 from rfl, drop_chunk8 _ _ _ l2, drop8_chunk _ _ l3]
  have e32 : (b1 ++ (b2 ++ (b3 ++ (b4 ++ b5)))).drop 32 = b5 := by
    rw [show (32 : Nat) = 8 + 24 from rfl, drop_chunk8 _ _ _ l1,
      show (24 : Nat) = 8 + 16 from rfl, drop_chunk8 _ _ _ l2,
      show (16 : Nat) = 8 + 8 from rfl, drop_chunk8 _ _ _ l3, drop8_chunk _ _ l4]
  rw [e8, e16, e24, e32]
  rw [take_chunk8 _ _ l1, take_chunk8 _ _ l2, take_chunk8 _ _ l3, take_chunk8 _ _ l4]
  rw [List.take_of_length_le (by rw [l5])]
  rw [hb1, hb2, hb3, hb4, hb5]
  rw [uint8_roundtrip _ h1, uint8_roundtrip _ h2, uint8_roundtrip _ h3,
    uint8_roundtrip _ h4, uint8_roundtrip _ h5]

theorem Slot.slot_roundtrip (s : Slot) (h1 : s.offset < 2 ^ 64)
    (h2 : s.length < 2 ^ 64) (h3 : s.state < 2 ^ 64) :
    Slot.deserialize s.serialize = some s := by
  unfold Slot.deserialize Slot.serialize
  rw [if_pos (by simp [uint8_length, Slot.ssize])]
  simp only [List.append_assoc]
  rw [show (16 : Nat) = 8 + 8 by rfl]
  rw [take_chunk8 _ _ (uint8_length _), drop8_chunk _ _ (uint8_length _),
    drop_chunk8 _ _ _ (uint8_length _)]
  rw [take_chunk8 _ _ (uint8_length _), drop8_chunk _ _ (uint8_length _)]
  rw [List.take_of_length_le (by rw [uint8_length])]
  rw [uint8_roundtrip _ h1, uint8_roundtrip _ h2, uint8_roundtrip _ h3]

theorem Slot.slot_serialize_length (s : Slot) : s.serialize.length = Slot.ssize := by
  simp [Slot.serialize, uint8_length, Slot.ssize]

/-- The slot-directory read loop recovers a serialized slot directory. -/
theorem readSlots_spec (ss : List Slot) (pre rest : List Nat) (off : Nat)
    (hoff : pre.length = off)
    (hb : ∀ s ∈ ss, s.offset < 2 ^ 64 ∧ s.length < 2 ^ 64 ∧ s.state < 2 ^ 64) :
    readSlots (pre ++ ((ss.map Slot.serialize).flatten ++ rest)) off
      (off + ss.length * Slot.ssize) = some ss := by
  induction ss generalizing pre off rest with
  | nil =>
    unfold readSlots
    rw [pyRange_empty _ _ (by simp)]
    rfl
  | cons s tail ih =>
    have hstop : off + (s :: tail).length * Slot.ssize =
        (off + Slot.ssize) + tail.length * Slot.ssize := by
      simp only [List.length_cons, Slot.ssize]
      ring
    have hre : pre ++ (((s :: tail).map Slot.serialize).flatten ++ rest) =
        (pre ++ s.serialize) ++ ((tail.map Slot.serialize).flatten ++ rest) := by
      simp only [List.map_cons, List.flatten_cons, List.append_assoc]
    have hlen2 : (pre ++ s.serialize).length = off + Slot.ssize := by
      simp [hoff, Slot.slot_serialize_length]
    unfold readSlots
    rw [pyRange_cons _ _ (by simp only [List.length_cons, Slot.ssize]; omega)]
    simp only [readSlotsGo]
    have hchunk : (((pre ++ (((s :: tail).map Slot.serialize).flatten ++ rest)).drop
        off).take Slot.ssize) = s.serialize := by
      rw [drop_append_exact _ _ _ hoff]
      simp only [List.map_cons, List.flatten_cons, List.append_assoc]
      exact take_append_exact _ _ _ (Slot.slot_serialize_length s)
    rw [hchunk]
    obtain ⟨hb1, hb2, hb3⟩ := hb s (by simp)
    rw [Slot.slot_roundtrip s hb1 hb2 hb3]
    have hih := ih (pre ++ s.serialize) rest (off + Slot.ssize) hlen2
      (fun t ht => hb t (by simp [ht]))
    unfold readSlots at hih
    rw [hre, hstop, hih]

/-- Applying one operation preserves the invariant. -/
theorem pageInv_applyOpG (p : Page) (g : List (List Nat)) (op : PageOp)
    (hinv : PageInv p g) :
    PageInv (applyOpG (p, g) op).1 (applyOpG (p, g) op).2 := by
  cases op with
  | ins r =>
    rcases hok : p.insert r with e | pr
    · simp only [applyOpG, hok]; exact hinv
    · obtain ⟨p', sid⟩ := pr
      simp only [applyOpG, hok]
      exact pageInv_insert p g r hinv p' sid hok
  | del sid =>
    rcases hok : p.delete sid with e | p'
    · simp only [applyOpG, hok]; exact hinv
    · simp only [applyOpG, hok]
      exact pageInv_delete p g sid hinv p' hok
  | upd sid r =>
    rcases hok : p.update sid r with e | pr
    · simp only [applyOpG, hok]; exact hinv
    · obtain ⟨p', retSid⟩ := pr
      simp only [applyOpG, hok]
      exact pageInv_update p g sid r hinv p' retSid hok

/-- Any page built from the empty page by a sequence of operations satisfies
the invariant together with its ghost contents. -/
theorem pageInv_applyOpsG (ops : List PageOp) (st : Page × List (List Nat))
    (hinv : PageInv st.1 st.2) :
    PageInv (applyOpsG st ops).1 (applyOpsG st ops).2 := by
  induction ops generalizing st with
  | nil => simpa [applyOpsG] using hinv
  | cons op rest ih =>
    simp only [applyOpsG, List.foldl_cons]
    have hst := pageInv_applyOpG st.1 st.2 op hinv
    exact ih (applyOpG st op) hst

theorem PageHeader.header_serialize_length (h : PageHeader) :
    h.serialize.length = PageHeader.hsize := by
  simp [PageHeader.serialize, uint8_length, PageHeader.hsize]

theorem slots_bytes_length (ss : List Slot) :
    ((ss.map Slot.serialize).flatten).length = ss.length * Slot.ssize := by
  induction ss with
  | nil => simp
  | cons s t ih =>
    simp only [List.map_cons, List.flatten_cons, List.length_append, ih,
      Slot.slot_serialize_length, List.length_cons]
    ring

/-- On invariant pages, `serialize` succeeds and produces the concatenation of
header bytes, slot bytes, free-space zeros and record bytes. -/
theorem serialize_inv (p : Page) (g : List (List Nat)) (hinv : PageInv p g)
    (lsn : Nat) :
    (p.set_header lsn).serialize = some
      ((p.set_header lsn).page_header.serialize ++
        ((p.slot_directory.map Slot.serialize).flatten ++
          (List.replicate ((PAGE_SIZE - p.records.length) -
            (PageHeader.hsize + p.slot_directory.length * Slot.ssize)) 0 ++
           p.records))) := by
  have hsz := hinv.size_ok
  have hfss : (p.set_header lsn).page_header.free_space_start =
      PageHeader.hsize + p.slot_directory.length * Slot.ssize := rfl
  have hfse : (p.set_header lsn).page_header.free_space_end =
      PAGE_SIZE - p.records.length := rfl
  have hsd : (p.set_header lsn).slot_directory = p.slot_directory := rfl
  have hrec : (p.set_header lsn).records = p.records := rfl
  unfold Page.serialize Page.total_slot_directory_size Page.total_record_size
  rw [hfss, hfse, hsd, hrec]
  have hint : (PAGE_SIZE : Int) = PageHeader.hsize +
      p.slot_directory.length * Slot.ssize +
      (((PAGE_SIZE - p.records.length : Nat) : Int) -
        ((PageHeader.hsize + p.slot_directory.length * Slot.ssize : Nat) : Int)) +
      p.records.length := by
    simp only [PageHeader.hsize, Slot.ssize, PAGE_SIZE] at hsz ⊢
    push_cast
    omega
  have hle : PageHeader.hsize + p.slot_directory.length * Slot.ssize ≤
      PAGE_SIZE - p.records.length := by
    simp only [PageHeader.hsize, Slot.ssize, PAGE_SIZE] at hsz ⊢
    omega
  rw [if_pos, if_pos hle]
  · rw [List.append_assoc, List.append_assoc]
  · push_cast
    push_cast at hint
    omega

/-- Deserialization recovers an invariant page that was serialized after
`set_header`. -/
theorem deserialize_inv (p : Page) (g : List (List Nat)) (hinv : PageInv p g)
    (lsn : Nat) (hlsn : lsn < 2 ^ 64) :
    ((p.set_header lsn).serialize).bind Page.deserialize =
      some (p.set_header lsn) := by
  have hsz := hinv.size_ok
  rw [serialize_inv p g hinv lsn]
  simp only [Option.bind_some, Option.some_bind]
  set hd := (p.set_header lsn).page_header with hhd
  set sb := (p.slot_directory.map Slot.serialize).flatten with hsb
  set fz := List.replicate ((PAGE_SIZE - p.records.length) -
      (PageHeader.hsize + p.slot_directory.length * Slot.ssize)) 0 with hfz
  have hhdlen : hd.serialize.length = PageHeader.hsize :=
    PageHeader.header_serialize_length hd
  have hsblen : sb.length = p.slot_directory.length * Slot.ssize :=
    slots_bytes_length p.slot_directory
  have hflags : p.page_header.flags = 0 := by rw [hinv.header_init]; rfl
  have hres : p.page_header.reserved = 0 := by rw [hinv.header_init]; rfl
  have hdfields : hd.lsn = lsn ∧ hd.flags = 0 ∧ hd.reserved = 0 ∧
      hd.free_space_start = PageHeader.hsize +
        p.slot_directory.length * Slot.ssize ∧
      hd.free_space_end = PAGE_SIZE - p.records.length := by
    refine ⟨rfl, ?_, ?_, rfl, rfl⟩ <;> simp [hhd, Page.set_header, hflags, hres]
  obtain ⟨hf1, hf2, hf3, hf4, hf5⟩ := hdfields
  unfold Page.deserialize
  -- the header chunk
  rw [take_append_exact _ _ _ hhdlen]
  rw [PageHeader.header_roundtrip hd (by rw [hf1]; exact hlsn) (by rw [hf2]; norm_num)
    (by rw [hf3]; norm_num)
    (by rw [hf4]; simp only [PageHeader.hsize, Slot.ssize, PAGE_SIZE] at hsz ⊢; omega)
    (by rw [hf5]; simp only [PageHeader.hsize, Slot.ssize, PAGE_SIZE] at hsz ⊢; omega)]
  simp only [Option.pure_def, Option.bind_eq_bind, Option.some_bind]
  -- the slot directory
  have hslots : readSlots (hd.serialize ++ (sb ++ (fz ++ p.records)))
      PageHeader.hsize hd.free_space_start = some p.slot_directory := by
    rw [hf4, hsb]
    exact readSlots_spec p.slot_directory hd.serialize (fz ++ p.records)
      PageHeader.hsize hhdlen
      (fun s hs => by
        have hb := hinv.slot_bound s hs
        have hst := hinv.state_small s hs
        have : p.records.length ≤ PAGE_SIZE := by
          simp only [PageHeader.hsize, Slot.ssize, PAGE_SIZE] at hsz ⊢
          omega
        refine ⟨?_, ?_, ?_⟩ <;> simp only [PAGE_SIZE] at this <;> omega)
  rw [hslots]
  simp only [Option.pure_def, Option.bind_eq_bind, Option.some_bind]
  -- the record region
  have hreclen : (hd.serialize ++ (sb ++ fz)).length = hd.free_space_end := by
    simp only [List.length_append, hhdlen, hsblen, hfz, List.length_replicate, hf5]
    simp only [PageHeader.hsize, Slot.ssize, PAGE_SIZE] at hsz ⊢
    omega
  have hdrop : (hd.serialize ++ (sb ++ (fz ++ p.records))).drop hd.free_space_end =
      p.records := by
    have hre : hd.serialize ++ (sb ++ (fz ++ p.records)) =
        (hd.serialize ++ (sb ++ fz)) ++ p.records := by
      simp only [List.append_assoc]
    rw [hre]
    exact drop_append_exact _ _ _ hreclen
  rw [hdrop]
  -- reassemble the page
  have : (⟨hd, p.slot_directory, p.records⟩ : Page) = p.set_header lsn := by
    rw [hhd]
    rfl
  rw [this]

/-- On an invariant page, `select` of a NORMAL slot returns the ghost bytes. -/
theorem select_inv (p : Page) (g : List (List Nat)) (hinv : PageInv p g)
    (i : Nat) (hi : i < p.slot_directory.length)
    (hnorm : (sAt p.slot_directory i).state = RecordState.NORMAL) :
    p.select i = .ok (g.getD i []) := by
  unfold Page.select
  rw [dif_pos hi]
  rw [← sAt_lt _ _ hi]
  rw [if_neg (by simp [hnorm])]
  rw [hinv.ghost_sel i hi hnorm]

/-- C5: for any page produced from the empty page by a sequence of
`insert`/`delete`/`update` operations with the header then set via
`set_header`, deserializing its serialization yields an equal page (header,
slot directory and record region all equal), and `select` on every NORMAL
slot of the round-tripped page returns the bytes last written into that slot
(tracked by the ghost list of `applyOpsG`). -/
theorem C5_roundtrip (ops : List PageOp) (lsn : Nat) (hlsn : lsn < 2 ^ 64) :
    ((((applyOpsG (Page.init, []) ops).1.set_header lsn).serialize).bind
        Page.deserialize) =
      some ((applyOpsG (Page.init, []) ops).1.set_header lsn) ∧
    (∀ P', ((((applyOpsG (Page.init, []) ops).1.set_header lsn).serialize).bind
        Page.deserialize) = some P' →
      ∀ i, i < P'.slot_directory.length →
        (sAt P'.slot_directory i).state = RecordState.NORMAL →
        P'.select i = .ok ((applyOpsG (Page.init, []) ops).2.getD i [])) := by
  have hinv := pageInv_applyOpsG ops (Page.init, []) pageInv_init
  refine ⟨deserialize_inv _ _ hinv lsn hlsn, ?_⟩
  intro P' hP' i hi hnorm
  rw [deserialize_inv _ _ hinv lsn hlsn] at hP'
  simp only [Option.some.injEq] at hP'
  subst hP'
  have hsel : ((applyOpsG (Page.init, []) ops).1.set_header lsn).select i =
      (applyOpsG (Page.init, []) ops).1.select i := rfl
  rw [hsel]
  exact select_inv _ _ hinv i hi hnorm

/-- Witness: round trip and NORMAL-slot select at a concrete operation
sequence (an insert, an update in place, a second insert and a delete). -/
theorem C5_roundtrip_witness :
    ((((applyOpsG (Page.init, [])
        [PageOp.ins [7, 8, 9], PageOp.upd 0 [5], PageOp.ins [4],
         PageOp.del 1]).1.set_header 6).serialize).bind Page.deserialize) =
      some ((applyOpsG (Page.init, [])
        [PageOp.ins [7, 8, 9], PageOp.upd 0 [5], PageOp.ins [4],
         PageOp.del 1]).1.set_header 6) ∧
    (applyOpsG (Page.init, [])
        [PageOp.ins [7, 8, 9], PageOp.upd 0 [5], PageOp.ins [4],
         PageOp.del 1]).2.getD 0 [] = [5] := by
  constructor
  · exact (C5_roundtrip
      [PageOp.ins [7, 8, 9], PageOp.upd 0 [5], PageOp.ins [4], PageOp.del 1]
      6 (by decide)).1
  · rfl

/-! ## LRU cache and buffer pool: `lru.py`.  The doubly-linked list with dummy
head/tail nodes is modelled as a list of nodes ordered from the LRU end
(`head.next`) to the MRU end (`tail.prev`); the `cache` hash map is the set of
keys present in that list (the source keeps the two in sync). -/

structure LRUNode (K V : Type) where
  key : K
  value : V
  pinned : Bool
  deriving DecidableEq, Repr

structure LRUCache (K V : Type) where
  capacity : Nat
  order : List (LRUNode K V)
  evicted : List (K × V)
  deriving DecidableEq, Repr

/-- `LRUCache(capacity)`. -/
def lruInit (K V : Type) (capacity : Nat) : LRUCache K V :=
  ⟨capacity, [], []⟩

variable {K V : Type} [DecidableEq K] [DecidableEq V]

/-- Remove the node with the given key (`_remove(self.cache[key])`). -/
def lruEraseKey (order : List (LRUNode K V)) (key : K) : List (LRUNode K V) :=
  match order with
  | [] => []
  | n :: rest => if n.key = key then rest else n :: lruEraseKey rest key

/-- Remove one specific node occurrence (`_remove(evicted_node)`), identified
by being the first unpinned node. -/
def lruEraseFirstUnpinned (order : List (LRUNode K V)) : List (LRUNode K V) :=
  match order with
  | [] => []
  | n :: rest => if n.pinned then n :: lruEraseFirstUnpinned rest else rest

/-- Python dict assignment `self.evicted[key] = value`. -/
def dictPut (l : List (K × V)) (key : K) (value : V) : List (K × V) :=
  if l.any (fun p => p.1 = key) then
    l.map (fun p => if p.1 = key then (key, value) else p)
  else l ++ [(key, value)]

/-- `LRUCache.put`: move an existing key's node out, append the new node at
the MRU end, then evict the first unpinned node from the LRU end when over
capacity; when the walk reaches the tail sentinel (every node pinned,
including the new one), roll back and raise `LRUError`. -/
def lruPut (c : LRUCache K V) (key : K) (value : V) :
    Except StorageErr (LRUCache K V) :=
  let order1 := if c.order.any (fun n => n.key = key) then
      lruEraseKey c.order key else c.order
  let node : LRUNode K V := ⟨key, value, false⟩
  let order2 := order1 ++ [node]
  if order2.length > c.capacity then
    match order2.find? (fun n => !n.pinned) with
    | none =>
        -- the eviction walk hit the tail sentinel: undo the insert and raise
        .error (.lruError "no available space for current node.")
    | some victim =>
        .ok { c with order := lruEraseFirstUnpinned order2,
                     evicted := dictPut c.evicted victim.key victim.value }
  else .ok { c with order := order2 }

/-- `LRUCache.get`: on a hit, move the node to the MRU end. -/
def lruGet (c : LRUCache K V) (key : K) : Option V × LRUCache K V :=
  match c.order.find? (fun n => n.key = key) with
  | some n => (some n.value, { c with order := lruEraseKey c.order key ++ [n] })
  | none => (none, c)

/-- `LRUCache.pin` / `LRUCache.unpin`. -/
def lruSetPinned (c : LRUCache K V) (key : K) (pinned : Bool) :
    Except StorageErr (LRUCache K V) :=
  if c.order.any (fun n => n.key = key) then
    let newOrder := c.order.map
      (fun n => if n.key = key then { n with pinned := pinned } else n)
    .ok { c with order := newOrder }
  else .error (.lruError "not found key")

/-! ## Claim C7: `put` on a full cache whose previous entries are all pinned -/

/-- C7: the claim says the new insertion is rolled back and the caller
receives the no-space error.  In the source the eviction walk starts at the
LRU end and stops at the first unpinned node — which is the freshly inserted
node itself when every older entry is pinned — so the new entry is silently
moved to the `evicted` map and `put` returns normally; the rollback-and-raise
branch is unreachable.  Evaluated on a capacity-1 cache holding one pinned
entry. -/
theorem C7_put_all_pinned :
    (do
      let c1 ← lruPut (lruInit Nat Nat 1) 1 10
      let c2 ← lruSetPinned c1 1 true
      lruPut c2 2 20) =
      .ok (⟨1, [⟨1, 10, true⟩], [(2, 20)]⟩ : LRUCache Nat Nat) := by
  rfl

/-! ## Lock manager: `lock/lock.py` -/

/-- Lock modes (the source uses the strings `'s'` and `'x'`). -/
inductive LockMode where
  | s
  | x
  deriving DecidableEq, Repr

structure LockEntry where
  lock_mode : LockMode
  holders : List Int
  deriving DecidableEq, Repr

variable {R : Type} [DecidableEq R]

/-- Dictionary lookup `self.locks[resource]`. -/
def lkp (locks : List (R × LockEntry)) (resource : R) : Option LockEntry :=
  match locks with
  | [] => none
  | (r, e) :: rest => if r = resource then some e else lkp rest resource

/-- Dictionary assignment `self.locks[resource] = entry`. -/
def dictSetLock (locks : List (R × LockEntry)) (resource : R) (e : LockEntry) :
    List (R × LockEntry) :=
  if (lkp locks resource).isSome then
    locks.map (fun p => if p.1 = resource then (resource, e) else p)
  else locks ++ [(resource, e)]

/-- `if_only_duplicated_elements(l, e)`: `set(l) == {e}`. -/
def if_only_duplicated_elements (l : List Int) (e : Int) : Bool :=
  !l.isEmpty && l.all (fun h => h = e)

/-- `LockManager._acquire_lock`: one attempt under the mutex; returns the new
lock table and the grant decision.  A denied attempt leaves the table
unchanged. -/
def _acquire_lock (locks : List (R × LockEntry)) (resource : R) (xid : Int)
    (mode : LockMode) : List (R × LockEntry) × Bool :=
  match lkp locks resource with
  | none => (dictSetLock locks resource ⟨mode, [xid]⟩, true)
  | some entry =>
    match entry.lock_mode, mode with
    | .s, .s =>
      (dictSetLock locks resource { entry with holders := entry.holders ++ [xid] }, true)
    | .s, .x =>
      if if_only_duplicated_elements entry.holders xid then
        (dictSetLock locks resource ⟨.x, entry.holders ++ [xid]⟩, true)
      else (locks, false)
    | .x, .s =>
      if if_only_duplicated_elements entry.holders xid then
        (dictSetLock locks resource { entry with holders := entry.holders ++ [xid] }, true)
      else (locks, false)
    | .x, .x => (locks, false)

/-- `LockManager.acquire_lock`: the retry loop `while not success and
try_count < 2`, unrolled (at most two attempts; each failed attempt sleeps
`lock_wait_timeout`, not modelled, and leaves the table unchanged).  Returns
the table, the outcome, and the number of attempts made. -/
def acquire_lock (locks : List (R × LockEntry)) (resource : R) (xid : Int)
    (mode : LockMode) :
    List (R × LockEntry) × Except StorageErr Unit × Nat :=
  let a1 := _acquire_lock locks resource xid mode
  if a1.2 then (a1.1, .ok (), 1)
  else
    let a2 := _acquire_lock locks resource xid mode
    if a2.2 then (a2.1, .ok (), 2)
    else (locks, .error (.lockConflict "lock conflicts"), 2)

theorem if_only_iff (l : List Int) (e : Int) :
    if_only_duplicated_elements l e = true ↔ l ≠ [] ∧ ∀ h ∈ l, h = e := by
  simp [if_only_duplicated_elements, List.isEmpty_iff, List.all_eq_true]

/-- C8: the grant decision of `_acquire_lock` matches the S/X matrix — free
resource: grant either mode; held S, requested S: grant; held S, requested X:
grant only when the holders multiset contains no xid other than the
requester; held X, requested S: grant only when the holders are solely the
requester; held X, requested X: deny — and a denied attempt is retried
exactly once by `acquire_lock`, which raises the conflict error after the
second failure (the failed attempt leaves the table unchanged, so the model's
second attempt repeats the first). -/
theorem C8_lock_matrix {R : Type} [DecidableEq R] (locks : List (R × LockEntry))
    (resource : R) (xid : Int) :
    (lkp locks resource = none →
      (_acquire_lock locks resource xid .s).2 = true ∧
      (_acquire_lock locks resource xid .x).2 = true) ∧
    (∀ hs, lkp locks resource = some ⟨.s, hs⟩ →
      (_acquire_lock locks resource xid .s).2 = true) ∧
    (∀ hs, lkp locks resource = some ⟨.s, hs⟩ → hs ≠ [] →
      ((_acquire_lock locks resource xid .x).2 = true ↔ ∀ h ∈ hs, h = xid)) ∧
    (∀ hs, lkp locks resource = some ⟨.x, hs⟩ → hs ≠ [] →
      ((_acquire_lock locks resource xid .s).2 = true ↔ ∀ h ∈ hs, h = xid)) ∧
    (∀ hs, lkp locks resource = some ⟨.x, hs⟩ →
      (_acquire_lock locks resource xid .x).2 = false) ∧
    (∀ mode : LockMode,
      ((_acquire_lock locks resource xid mode).2 = true →
        acquire_lock locks resource xid mode =
          ((_acquire_lock locks resource xid mode).1, .ok (), 1)) ∧
      ((_acquire_lock locks resource xid mode).2 = false →
        acquire_lock locks resource xid mode =
          (locks, .error (.lockConflict "lock conflicts"), 2))) := by
  refine ⟨?_, ?_, ?_, ?_, ?_, ?_⟩
  · intro h
    unfold _acquire_lock
    rw [h]
    exact ⟨rfl, rfl⟩
  · intro hs h
    unfold _acquire_lock
    rw [h]
  · intro hs h hne
    unfold _acquire_lock
    rw [h]
    by_cases hio : if_only_duplicated_elements hs xid = true
    · simp only [hio, if_true]
      simp only [true_iff]
      exact ((if_only_iff hs xid).mp hio).2
    · simp only [hio, Bool.false_eq_true, if_false]
      simp only [false_iff]
      intro hall
      exact hio ((if_only_iff hs xid).mpr ⟨hne, hall⟩)
  · intro hs h hne
    unfold _acquire_lock
    rw [h]
    by_cases hio : if_only_duplicated_elements hs xid = true
    · simp only [hio, if_true]
      simp only [true_iff]
      exact ((if_only_iff hs xid).mp hio).2
    · simp only [hio, Bool.false_eq_true, if_false]
      simp only [false_iff]
      intro hall
      exact hio ((if_only_iff hs xid).mpr ⟨hne, hall⟩)
  · intro hs h
    unfold _acquire_lock
    rw [h]
  · intro mode
    constructor
    · intro hgrant
      simp [acquire_lock, hgrant]
    · intro hdeny
      simp [acquire_lock, hdeny]

/-- Witness: lock upgrade (held S by the requester alone, X requested) is
granted; a second transaction's S request on an X-held resource conflicts
after two attempts. -/
theorem C8_lock_matrix_witness :
    ((_acquire_lock [(("r" : String), (⟨.s, [1]⟩ : LockEntry))] "r" 1 .x).2 = true) ∧
    acquire_lock [(("r" : String), (⟨.x, [1, 1]⟩ : LockEntry))] "r" 2 .s =
      ([("r", ⟨.x, [1, 1]⟩)], .error (.lockConflict "lock conflicts"), 2) := by
  constructor
  · exact ((C8_lock_matrix [("r", ⟨.s, [1]⟩)] "r" 1).2.2.1 [1] rfl
      (by decide)).mpr (by decide)
  · exact ((C8_lock_matrix [("r", ⟨.x, [1, 1]⟩)] "r" 2).2.2.2.2.2 .s).2 (by decide)

/-! ## Redo log: `transaction/redo.py`.  Records carry an abstract serialized
`size` (in the source, `len(record)` is the pickle length plus an 8-byte
framing header; the byte-level pickle format is opaque, so the length is kept
as a field).  LSNs are byte offsets computed from these sizes exactly as in
the source. -/

inductive RedoAction where
  | BEGIN | COMMIT | ABORT
  | TABLE_INSERT | TABLE_DELETE | TABLE_UPDATE
  | INDEX_INSERT | INDEX_DELETE | INDEX_UPDATE
  | CHECKPOINT
  deriving DecidableEq, Repr

structure RedoRecord where
  xid : Int
  action : RedoAction
  relation : Option String
  location : Option (Nat × Nat)
  data : List Nat
  size : Nat
  deriving DecidableEq, Repr

def REDOLOG_BUFFER_SIZE : Nat := 10

structure RedoLogManager where
  log_buffer : List RedoRecord
  write_lsn : Nat
  flush_lsn : Nat
  logFile : List RedoRecord
  deriving DecidableEq, Repr

/-- `RedoLogManager.flush`: append the buffer to the file (with fsync) and
advance `flush_lsn`. -/
def redoFlush (m : RedoLogManager) : RedoLogManager :=
  { m with logFile := m.logFile ++ m.log_buffer,
           flush_lsn := m.flush_lsn + (m.log_buffer.map RedoRecord.size).sum,
           log_buffer := [] }

/-- `RedoLogManager.write`: buffer the record, bump `write_lsn`, flush on
COMMIT or when the buffer exceeds `REDOLOG_BUFFER_SIZE`; returns the new
`write_lsn`. -/
def redoWrite (m : RedoLogManager) (record : RedoRecord) :
    RedoLogManager × Nat :=
  let m := { m with log_buffer := m.log_buffer ++ [record],
                    write_lsn := m.write_lsn + record.size }
  let m := if record.action = RedoAction.COMMIT ∨
      m.log_buffer.length > REDOLOG_BUFFER_SIZE then redoFlush m else m
  (m, m.write_lsn)

/-- `RedoLogManager.replay(start_lsn)`: yield the records from byte offset
`start_lsn` to EOF.  A `start_lsn` inside a record cannot arise from
`recovery` (its cursors are sums of record sizes); such a read would hit
pickle garbage in the source, modelled as an empty tail. -/
def replayFrom (file : List RedoRecord) (start_lsn : Nat) : List RedoRecord :=
  match file with
  | [] => []
  | r :: rest =>
    if start_lsn = 0 then r :: rest
    else if r.size ≤ start_lsn then replayFrom rest (start_lsn - r.size)
    else []

/-! ## Undo log: `transaction/undo.py` -/

inductive UndoOperation where
  | BEGIN | TABLE_INSERT | TABLE_DELETE | TABLE_UPDATE
  | COMMIT | ABORT | INDEX_INSERT | INDEX_DELETE
  deriving DecidableEq, Repr

structure UndoRecord where
  xid : Int
  operation : UndoOperation
  relation : Option String
  location : Option (Nat × Nat)
  data : List Nat
  deriving DecidableEq, Repr

/-- Per-xid association lists for undo state (`active_transactions` dict and
the `undo/<xid>` files). -/
def lkpXid (l : List (Int × List UndoRecord)) (xid : Int) :
    Option (List UndoRecord) :=
  match l with
  | [] => none
  | (x, rs) :: rest => if x = xid then some rs else lkpXid rest xid

def setXid (l : List (Int × List UndoRecord)) (xid : Int)
    (rs : List UndoRecord) : List (Int × List UndoRecord) :=
  if (lkpXid l xid).isSome then
    l.map (fun p => if p.1 = xid then (xid, rs) else p)
  else l ++ [(xid, rs)]

/-! ## The database state threaded through the storage layer: the global
singletons `buffer_pool`, `transaction_mgr` (redo/undo managers, xid
allocation, thread-local session xid) and the table files on disk.  Table
files hold the deserialized content of each page-size block.  Index files are
mutated only through B+ tree serialization, which the page-level claims never
observe; those mutations are recorded as events in `indexOps`. -/

structure DB where
  redo : RedoLogManager
  undo_active : List (Int × List UndoRecord)
  undo_files : List (Int × List UndoRecord)
  buffer : LRUCache (String × Nat) Page
  dirty : List (String × Nat)
  disk : List (String × List Page)
  current_xid : Int
  session_xid : Int
  indexOps : List (String × UndoOperation × List Nat × Option (Nat × Nat))
  deriving DecidableEq, Repr

def INVALID_XID : Int := -1

def bufferContains (db : DB) (key : String × Nat) : Bool :=
  db.buffer.order.any (fun n => n.key = key)

/-- Replace the page object stored for `key` (the source mutates the `Page`
object held by the cache in place, which does not reorder the LRU list). -/
def bufferSetValue (db : DB) (key : String × Nat) (page : Page) : DB :=
  let newOrder := db.buffer.order.map
    (fun n => if n.key = key then { n with value := page } else n)
  { db with buffer := { db.buffer with order := newOrder } }

/-- `BufferPool.mark_dirty`: asserts the key is cached. -/
def markDirty (db : DB) (key : String × Nat) : Except StorageErr DB :=
  if bufferContains db key then
    .ok { db with dirty := if db.dirty.any (fun k => k = key) then db.dirty
                           else db.dirty ++ [key] }
  else .error .assertionError

def lkpDisk (disk : List (String × List Page)) (t : String) :
    Option (List Page) :=
  match disk with
  | [] => none
  | (n, ps) :: rest => if n = t then some ps else lkpDisk rest t

/-- `table_tuple_get_disk_pages`: pages in the `.tbl` file (0 when absent). -/
def table_tuple_get_disk_pages (db : DB) (t : String) : Nat :=
  ((lkpDisk db.disk t).getD []).length

/-- `BufferPool.find_max_pageno`: largest dirty pageno for the relation, `-1`
when none (the source sorts the `(relation, pageno)` pairs and takes the
last). -/
def find_max_pageno (db : DB) (t : String) : Int :=
  match (db.dirty.filter (fun p => p.1 = t)).map Prod.snd with
  | [] => -1
  | x :: xs => ((xs.foldl Nat.max x : Nat) : Int)

/-- `table_tuple_get_pages`: `max(memory_pages, disk_pages)` with
`memory_pages = find_max_pageno + 1`. -/
def table_tuple_get_pages (db : DB) (t : String) : Nat :=
  max (find_max_pageno db t + 1).toNat (table_tuple_get_disk_pages db t)

/-- `common.table_tuple_get_page`: fetch through the buffer pool, loading
from disk or creating a fresh dirty page on miss; the final unconditional
`buffer_pool[key]` access moves the entry to the MRU end.  When that access
misses (the put itself evicted the entry) the source returns `None`, which
every caller immediately dereferences — modelled as `AttributeError`. -/
def table_tuple_get_page (db : DB) (t : String) (pageno : Nat) :
    Except StorageErr (Page × DB) := do
  let key := (t, pageno)
  let db ←
    if bufferContains db key then pure db
    else if pageno < table_tuple_get_disk_pages db t then do
      let page := ((lkpDisk db.disk t).getD []).getD pageno Page.init
      let buf ← lruPut db.buffer key page
      pure { db with buffer := buf }
    else do
      let buf ← lruPut db.buffer key Page.init
      markDirty { db with buffer := buf } key
  match lruGet db.buffer key with
  | (some page, buf) => pure (page, { db with buffer := buf })
  | (none, _) => .error .attributeError

/-- `UndoLogManager.write`: asserts the xid has an active in-memory list. -/
def undoWrite (db : DB) (record : UndoRecord) : Except StorageErr DB :=
  match lkpXid db.undo_active record.xid with
  | none => .error .assertionError
  | some rs =>
    let newActive := setXid db.undo_active record.xid (rs ++ [record])
    .ok { db with undo_active := newActive }

/-- `UndoLogManager.parse_record(xid)`: read `undo/<xid>` and return the
records in reverse order; a missing file raises. -/
def undoParseRecord (db : DB) (xid : Int) :
    Except StorageErr (List UndoRecord) :=
  match lkpXid db.undo_files xid with
  | none => .error .fileNotFound
  | some rs => .ok rs.reverse

/-- Tuple unpacking / string use of a `None` field raises in the source. -/
def reqStr : Option String → Except StorageErr String
  | some s => .ok s
  | none => .error .valueError

def reqLoc : Option (Nat × Nat) → Except StorageErr (Nat × Nat)
  | some l => .ok l
  | none => .error .valueError

/-- One undo record applied in `TransactionManager.perform_undo`.  The
`BEGIN`/`COMMIT`/`ABORT` sentinels match no branch and are skipped.  The
`INDEX_*` branches rebuild and rewrite an index file through the B+ tree; the
buffer-pool page state observed by the claims is untouched, so the mutation
is recorded as an event. -/
def performUndoStep (db : DB) (lsn : Nat) (u : UndoRecord) :
    Except StorageErr DB := do
  match u.operation with
  | .TABLE_DELETE => do
      let rel ← reqStr u.relation
      let (pageno, sid) ← reqLoc u.location
      let (page, db) ← table_tuple_get_page db rel pageno
      let page ← page.delete sid
      let page := page.set_header lsn
      let db := bufferSetValue db (rel, pageno) page
      markDirty db (rel, pageno)
  | .TABLE_INSERT => do
      let rel ← reqStr u.relation
      let (pageno, _sid) ← reqLoc u.location
      let (page, db) ← table_tuple_get_page db rel pageno
      let (page, _new_sid) ← page.insert u.data
      let page := page.set_header lsn
      let db := bufferSetValue db (rel, pageno) page
      markDirty db (rel, pageno)
  | .TABLE_UPDATE => do
      let rel ← reqStr u.relation
      let (pageno, sid) ← reqLoc u.location
      let (page, db) ← table_tuple_get_page db rel pageno
      let (page, _new_sid) ← page.update sid u.data
      let page := page.set_header lsn
      let db := bufferSetValue db (rel, pageno) page
      markDirty db (rel, pageno)
  | .INDEX_INSERT =>
      .ok { db with indexOps := db.indexOps ++
        [((u.relation.getD ""), .INDEX_INSERT, u.data, u.location)] }
  | .INDEX_DELETE =>
      .ok { db with indexOps := db.indexOps ++
        [((u.relation.getD ""), .INDEX_DELETE, u.data, u.location)] }
  | _ => .ok db

def performUndoLoop (lsn : Nat) : DB → List UndoRecord → Except StorageErr DB
  | db, [] => .ok db
  | db, u :: rest => do
      let db ← performUndoStep db lsn u
      performUndoLoop lsn db rest

/-- `TransactionManager.perform_undo(xid, lsn)`: replay the xid's undo file
in reverse order against the buffer pool. -/
def perform_undo (db : DB) (xid : Int) (lsn : Nat) : Except StorageErr DB := do
  let records ← undoParseRecord db xid
  performUndoLoop lsn db records

/-- First recovery scan: locate the tail position of the last `CHECKPOINT`
record (0 when none exists). -/
def findCheckpoint : List RedoRecord → Nat → Nat → Nat
  | [], _, ck => ck
  | r :: rest, cur, ck =>
      let cur := cur + r.size
      findCheckpoint rest cur (if r.action = RedoAction.CHECKPOINT then cur else ck)

/-- Python `list.remove`: drop the first occurrence (the caller checks
membership; an absent value raises `ValueError`). -/
def removeFirstInt : List Int → Int → List Int
  | [], _ => []
  | x :: rest, v => if x = v then rest else x :: removeFirstInt rest v

structure ReplayState where
  db : DB
  transactions : List Int
  replay_lsn : Nat
  deriving Repr

/-- One redo record of the second recovery scan (`TransactionManager.recovery`
main loop). -/
def recoveryReplayStep (st : ReplayState) (r : RedoRecord) :
    Except StorageErr ReplayState := do
  let replay_lsn := st.replay_lsn + r.size
  let db := st.db
  let transactions := st.transactions
  match r.action with
  | .BEGIN =>
      .ok ⟨{ db with current_xid := r.xid }, transactions ++ [r.xid], replay_lsn⟩
  | .TABLE_INSERT => do
      let rel ← reqStr r.relation
      let (pageno, sid) ← reqLoc r.location
      let (page, db) ← table_tuple_get_page db rel pageno
      if page.page_header.lsn < replay_lsn then do
        let (page1, new_sid) ← page.insert r.data
        let page1 := page1.set_header replay_lsn
        let db := bufferSetValue db (rel, pageno) page1
        if new_sid = sid then .ok ⟨db, transactions, replay_lsn⟩
        else .error .assertionError
      else .ok ⟨db, transactions, replay_lsn⟩
  | .TABLE_DELETE => do
      let rel ← reqStr r.relation
      let (pageno, sid) ← reqLoc r.location
      let (page, db) ← table_tuple_get_page db rel pageno
      if page.page_header.lsn < replay_lsn then do
        let page1 ← page.delete sid
        let page1 := page1.set_header replay_lsn
        .ok ⟨bufferSetValue db (rel, pageno) page1, transactions, replay_lsn⟩
      else .ok ⟨db, transactions, replay_lsn⟩
  | .TABLE_UPDATE => do
      let rel ← reqStr r.relation
      let (pageno, sid) ← reqLoc r.location
      let (page, db) ← table_tuple_get_page db rel pageno
      if page.page_header.lsn < replay_lsn then do
        let (page1, _new_sid) ← page.update sid r.data
        let page1 := page1.set_header replay_lsn
        .ok ⟨bufferSetValue db (rel, pageno) page1, transactions, replay_lsn⟩
      else .ok ⟨db, transactions, replay_lsn⟩
  | .ABORT => do
      let db ← perform_undo db r.xid replay_lsn
      .ok ⟨db, transactions, replay_lsn⟩
  | .COMMIT =>
      if transactions.any (fun x => x = r.xid) then
        .ok ⟨db, removeFirstInt transactions r.xid, replay_lsn⟩
      else .error .valueError
  | _ => .ok ⟨db, transactions, replay_lsn⟩

def recoveryReplayLoop : ReplayState → List RedoRecord → Except StorageErr ReplayState
  | st, [] => .ok st
  | st, r :: rest => do
      let st ← recoveryReplayStep st r
      recoveryReplayLoop st rest

/-- End-of-recovery pass: synthesize an `ABORT` redo record for every xid
still in flight and undo it at the new lsn.  `abortSize` abstracts the
serialized length of the synthesized record. -/
def recoveryAbortLoop (abortSize : Nat) : DB → List Int → Except StorageErr DB
  | db, [] => .ok db
  | db, xid :: rest => do
      let (redo1, lsn) := redoWrite db.redo
        ⟨xid, RedoAction.ABORT, none, none, [], abortSize⟩
      let db ← perform_undo { db with redo := redo1 } xid lsn
      recoveryAbortLoop abortSize db rest

/-- `TransactionManager.recovery`: reset the lsn counters from the file size,
locate the last checkpoint, replay forward from it, then abort every
transaction still in flight. -/
def recovery (db : DB) (abortSize : Nat) : Except StorageErr DB := do
  let flush_lsn := (db.redo.logFile.map RedoRecord.size).sum
  let db := { db with redo := { db.redo with flush_lsn := flush_lsn,
                                             write_lsn := flush_lsn } }
  let checkpoint_lsn := findCheckpoint db.redo.logFile 0 0
  let st ← recoveryReplayLoop ⟨db, [], checkpoint_lsn⟩
    (replayFrom db.redo.logFile checkpoint_lsn)
  recoveryAbortLoop abortSize st.db st.transactions

/-! ## Heap access: `storage/entry.py`.  Records are opaque byte strings;
`tuple_to_bytes`/`bytes_to_tuple` (pickle) are modelled as the identity on
the serialized form.  Each mutation takes the abstract serialized length of
the redo record it writes (`recSize`). -/

/-- `table_tuple_get_one`. -/
def table_tuple_get_one (db : DB) (t : String) (loc : Nat × Nat) :
    Except StorageErr (List Nat × DB) := do
  let (pageno, sid) := loc
  let (page, db) ← table_tuple_get_page db t pageno
  let bytes ← page.select sid
  pure (bytes, db)

/-- `table_tuple_get_last_pageno`. -/
def table_tuple_get_last_pageno (db : DB) (t : String) : Nat :=
  max (table_tuple_get_pages db t - 1) 0

/-- `table_tuple_allocate_page`: fetches the current last page and asserts
the page count grew — `table_tuple_get_page` never extends the table, so the
assertion `new_pageno == pageno + 1` cannot hold. -/
def table_tuple_allocate_page (db : DB) (t : String) :
    Except StorageErr (Nat × DB) := do
  let pageno := table_tuple_get_last_pageno db t
  let (_page, db) ← table_tuple_get_page db t pageno
  let new_pageno := table_tuple_get_last_pageno db t
  if new_pageno = pageno + 1 then pure (new_pageno, db)
  else .error .assertionError

/-- `table_tuple_insert_one`: insert into the last page; on `PageError`
allocate a new page and retry there.  On the fallback path the source stamps
the header lsn of `page` — the old, full page — not of `new_page`, and
returns the old `pageno` with the new page's sid. -/
def table_tuple_insert_one (db : DB) (t : String) (tup : List Nat)
    (recSize : Nat) : Except StorageErr ((Nat × Nat) × DB) := do
  let pageno := table_tuple_get_last_pageno db t
  -- `if pageno < 0: allocate` — unreachable, get_last_pageno is clamped at 0
  let (page, db) ← table_tuple_get_page db t pageno
  let xid := db.session_xid
  let tuple_bytes := tup
  match page.insert tup with
  | .ok (page1, sid) => do
      let db := bufferSetValue db (t, pageno) page1
      let db ← markDirty db (t, pageno)
      let db ← undoWrite db ⟨xid, .TABLE_DELETE, some t, some (pageno, sid), []⟩
      let (redo1, lsn) := redoWrite db.redo
        ⟨xid, .TABLE_INSERT, some t, some (pageno, sid), tuple_bytes, recSize⟩
      let db := { db with redo := redo1 }
      let db := bufferSetValue db (t, pageno) (page1.set_header lsn)
      pure ((pageno, sid), db)
  | .error (.pageError _) => do
      let (new_pageno, db) ← table_tuple_allocate_page db t
      let (new_page, db) ← table_tuple_get_page db t new_pageno
      let (new_page1, sid) ← new_page.insert tuple_bytes
      let db := bufferSetValue db (t, new_pageno) new_page1
      let db ← markDirty db (t, new_pageno)
      let db ← undoWrite db ⟨xid, .TABLE_DELETE, some t, some (new_pageno, sid), []⟩
      let (redo1, lsn) := redoWrite db.redo
        ⟨xid, .TABLE_INSERT, some t, some (new_pageno, sid), tuple_bytes, recSize⟩
      let db := { db with redo := redo1 }
      -- source line 132: the OLD full page is stamped, not `new_page`
      let db := bufferSetValue db (t, pageno) (page.set_header lsn)
      pure ((pageno, sid), db)
  | .error e => .error e

/-- `table_tuple_delete_one`. -/
def table_tuple_delete_one (db : DB) (t : String) (loc : Nat × Nat)
    (recSize : Nat) : Except StorageErr DB := do
  let (pageno, sid) := loc
  let (page, db) ← table_tuple_get_page db t pageno
  let xid := db.session_xid
  let (old_tuple_bytes, db) ← table_tuple_get_one db t loc
  let page1 ← page.delete sid
  let db := bufferSetValue db (t, pageno) page1
  let db ← markDirty db (t, pageno)
  let db ← undoWrite db ⟨xid, .TABLE_INSERT, some t, some (pageno, sid), old_tuple_bytes⟩
  let (redo1, lsn) := redoWrite db.redo
    ⟨xid, .TABLE_DELETE, some t, some (pageno, sid), [], recSize⟩
  let db := { db with redo := redo1 }
  let db := bufferSetValue db (t, pageno) (page1.set_header lsn)
  pure db

/-- `table_tuple_update_one`: in-place update through `Page.update`; on
`PageError` fall back to delete-then-insert.  The source returns the slot id
on the first path and the `(pageno, sid)` pair from `table_tuple_insert_one`
on the fallback path. -/
def table_tuple_update_one (db : DB) (t : String) (loc : Nat × Nat)
    (tup : List Nat) (recSize recSizeDel recSizeIns : Nat) :
    Except StorageErr ((Nat ⊕ (Nat × Nat)) × DB) := do
  let (pageno, sid) := loc
  let (page, db) ← table_tuple_get_page db t pageno
  let xid := db.session_xid
  let old_tuple_bytes ← page.select sid
  match page.update sid tup with
  | .ok (page1, new_sid) => do
      let db := bufferSetValue db (t, pageno) page1
      let db ← markDirty db (t, pageno)
      let db ← undoWrite db ⟨xid, .TABLE_UPDATE, some t, some (pageno, sid), old_tuple_bytes⟩
      let (redo1, lsn) := redoWrite db.redo
        ⟨xid, .TABLE_UPDATE, some t, some (pageno, new_sid), tup, recSize⟩
      let db := { db with redo := redo1 }
      let db := bufferSetValue db (t, pageno) (page1.set_header lsn)
      pure (.inl new_sid, db)
  | .error (.pageError _) => do
      let db ← table_tuple_delete_one db t loc recSizeDel
      let (loc2, db) ← table_tuple_insert_one db t tup recSizeIns
      pure (.inr loc2, db)
  | .error e => .error e

/-! ## Claims C1, C2, C10: recovery scenarios -/

/-- A table page holding one two-byte record, as it would sit in `t.tbl`. -/
def diskPage0 : Page :=
  match Page.init.insert [9, 9] with
  | .ok (p, _) => p.set_header 0
  | .error _ => Page.init

/-- Redo log of a transaction that deleted the record at `(0, 0)` of table
`t` and then aborted; the abort's `perform_undo` already ran before the
crash, so its effects are replayed from this log alone. -/
def c1log : List RedoRecord :=
  [⟨1, .BEGIN, none, none, [], 20⟩,
   ⟨1, .TABLE_DELETE, some "t", some (0, 0), [], 30⟩,
   ⟨1, .ABORT, none, none, [], 20⟩]

/-- The flushed undo file of xid 1: the BEGIN sentinel and the compensation
record for the delete (re-insert the original bytes). -/
def c1undo : List (Int × List UndoRecord) :=
  [(1, [⟨1, .BEGIN, none, none, []⟩,
        ⟨1, .TABLE_INSERT, some "t", some (0, 0), [9, 9]⟩])]

def c1db : DB :=
  { redo := ⟨[], 0, 0, c1log⟩,
    undo_active := [],
    undo_files := c1undo,
    buffer := lruInit _ _ 100,
    dirty := [],
    disk := [("t", [diskPage0])],
    current_xid := 0,
    session_xid := INVALID_XID,
    indexOps := [] }

/-- The slot states of table `t`'s page 0 in the buffer pool
(0 UNUSED, 1 NORMAL, 2 DEAD). -/
def pageStates (db : DB) : List Nat :=
  ((db.buffer.order.find? (fun n => n.key = ("t", 0))).map
    (fun n => n.value.slot_directory.map Slot.state)).getD []

/-- C1: replaying an `ABORT` record invokes `perform_undo` but does **not**
remove the xid from the in-flight list, so the end-of-recovery pass aborts
the transaction a second time.  On `c1db`: after the replay loop the
in-flight list still holds xid 1 (the claim says it was removed), and full
recovery applies the compensation insert twice — the deleted record comes
back as two NORMAL slots instead of one. -/
theorem C1_abort_keeps_xid_in_flight :
    (recoveryReplayLoop
        ⟨{ c1db with redo := { c1db.redo with flush_lsn := 70, write_lsn := 70 } },
         [], 0⟩ c1log).map (fun st => st.transactions) = .ok [1] ∧
    (recovery c1db 20).map pageStates =
      .ok [RecordState.DEAD, RecordState.NORMAL, RecordState.NORMAL] := by
  exact ⟨rfl, rfl⟩

/-- C2: recovery is **not** idempotent on this log: the `page.lsn <
replay_lsn` guard does suppress the `TABLE_DELETE` on the second run, but the
second run repeats both `perform_undo` applications (the replayed `ABORT` and
the end-of-recovery abort of the still-in-flight xid), so the page gains two
more slots. -/
theorem C2_recovery_twice_differs :
    (recovery c1db 20).map pageStates =
      .ok [RecordState.DEAD, RecordState.NORMAL, RecordState.NORMAL] ∧
    ((recovery c1db 20).bind (fun db1 => recovery db1 20)).map pageStates =
      .ok [RecordState.DEAD, RecordState.NORMAL, RecordState.NORMAL,
           RecordState.NORMAL, RecordState.NORMAL] ∧
    ([RecordState.DEAD, RecordState.NORMAL, RecordState.NORMAL] ≠
      [RecordState.DEAD, RecordState.NORMAL, RecordState.NORMAL,
       RecordState.NORMAL, RecordState.NORMAL]) := by
  exact ⟨rfl, rfl, by decide⟩

theorem replayFrom_zero (l : List RedoRecord) : replayFrom l 0 = l := by
  cases l <;> rfl

theorem replayFrom_exact (r : RedoRecord) (rest : List RedoRecord)
    (h : 0 < r.size) : replayFrom (r :: rest) r.size = rest := by
  have h1 : ¬ (r.size = 0) := by omega
  have h2 : r.size ≤ r.size := le_refl _
  unfold replayFrom
  rw [if_neg h1, if_pos h2, Nat.sub_self]
  exact replayFrom_zero rest

theorem replayFrom_skip (r : RedoRecord) (rest : List RedoRecord) (k : Nat)
    (hk : 0 < k) : replayFrom (r :: rest) (r.size + k) = replayFrom rest k := by
  have h1 : ¬ (r.size + k = 0) := by omega
  have h2 : r.size ≤ r.size + k := by omega
  have h3 : r.size + k - r.size = k := by omega
  unfold replayFrom
  rw [if_neg h1, if_pos h2, h3]
  cases rest <;> rfl

/-- C10: a `COMMIT` record whose xid is not in the in-flight set — here a
transaction whose `BEGIN` precedes the last `CHECKPOINT` while its `COMMIT`
follows it — hits the unguarded `transactions.remove(xid)` and recovery
raises `ValueError` instead of skipping the record, for any such database
state, xid and record sizes. -/
theorem C10_commit_before_checkpoint_errors (db : DB) (x : Int)
    (s1 s2 s3 abortSize : Nat) (h2 : 0 < s2)
    (hlog : db.redo.logFile =
      [⟨x, .BEGIN, none, none, [], s1⟩,
       ⟨INVALID_XID, .CHECKPOINT, none, none, [], s2⟩,
       ⟨x, .COMMIT, none, none, [], s3⟩]) :
    recovery db abortSize = .error .valueError := by
  unfold recovery
  rw [hlog]
  dsimp only
  rw [hlog]
  have hck : findCheckpoint
      [⟨x, .BEGIN, none, none, [], s1⟩,
       ⟨INVALID_XID, .CHECKPOINT, none, none, [], s2⟩,
       ⟨x, .COMMIT, none, none, [], s3⟩] 0 0 = 0 + s1 + s2 := by
    simp [findCheckpoint]
  rw [hck]
  have hrep1 : replayFrom
      [⟨x, .BEGIN, none, none, [], s1⟩,
       ⟨INVALID_XID, .CHECKPOINT, none, none, [], s2⟩,
       ⟨x, .COMMIT, none, none, [], s3⟩] (0 + s1 + s2) =
      replayFrom [⟨INVALID_XID, .CHECKPOINT, none, none, [], s2⟩,
       ⟨x, .COMMIT, none, none, [], s3⟩] s2 := by
    have := replayFrom_skip (⟨x, .BEGIN, none, none, [], s1⟩ : RedoRecord)
      [⟨INVALID_XID, .CHECKPOINT, none, none, [], s2⟩,
       ⟨x, .COMMIT, none, none, [], s3⟩] s2 h2
    simpa [Nat.zero_add] using this
  have hrep2 : replayFrom [⟨INVALID_XID, .CHECKPOINT, none, none, [], s2⟩,
      (⟨x, .COMMIT, none, none, [], s3⟩ : RedoRecord)] s2 =
      [⟨x, .COMMIT, none, none, [], s3⟩] :=
    replayFrom_exact _ _ h2
  rw [hrep1, hrep2]
  simp [recoveryReplayLoop, recoveryReplayStep, Except.bind]
  rfl

/-- Witness for C10 at a concrete database state and record sizes. -/
theorem C10_commit_before_checkpoint_errors_witness :
    recovery { c1db with redo := ⟨[], 0, 0,
      [⟨7, .BEGIN, none, none, [], 21⟩,
       ⟨INVALID_XID, .CHECKPOINT, none, none, [], 17⟩,
       ⟨7, .COMMIT, none, none, [], 19⟩]⟩ } 20 = .error .valueError :=
  C10_commit_before_checkpoint_errors _ 7 21 17 19 20 (by decide) rfl

/-! ## Claim C3: heap mutation on a full last page -/

/-- A page of table `t` that cannot take a 100-byte record: 335 slots of
empty records leave `40 + 336*24 + 0 + 100 = 8204 ≥ 8192` for the next
insert. -/
def fullPageHeader : PageHeader :=
  ⟨0, 0, 0, PageHeader.hsize + 335 * Slot.ssize, PAGE_SIZE⟩

def fullPage : Page :=
  ⟨fullPageHeader, List.replicate 335 ⟨0, 0, RecordState.NORMAL⟩, []⟩

/-- A database whose table `t` has this full page as its only (dirty,
buffered) page, inside an active transaction of xid 1. -/
def c3db : DB :=
  { redo := ⟨[], 0, 0, []⟩,
    undo_active := [(1, [⟨1, .BEGIN, none, none, []⟩])],
    undo_files := [],
    buffer := ⟨100, [⟨("t", 0), fullPage, false⟩], []⟩,
    dirty := [("t", 0)],
    disk := [],
    current_xid := 1,
    session_xid := 1,
    indexOps := [] }

set_option maxRecDepth 10000 in
/-- C3: on the page-full fallback path, `table_tuple_insert_one` crashes in
`table_tuple_allocate_page` — `table_tuple_get_page` never extends the table,
so `new_pageno == pageno + 1` fails — before any undo or redo record is
written and before any page is mutated; the claim's one-undo/one-redo,
lsn-stamp and mark-dirty obligations are all unmet on that path.  (Even if
allocation succeeded, line 132 of `storage/entry.py` stamps the lsn on the
old full page, not on the page that was mutated.) -/
theorem C3_insert_fallback_crashes :
    table_tuple_insert_one c3db "t" (List.replicate 100 1) 25 =
      .error .assertionError := by
  rfl

/-! ## Planner access-path selection (sql/optimizier/planner.py) -/

/-- A side of a `Condition`: either a qualified column reference
(`TableColumn(table_name, column)` built in `logical_operator.py`) or a
constant value. -/
inductive Operand where
  | tableColumn (table_name column_name : String)
  | constant (v : Int)
deriving DecidableEq

/-- `Condition(sign, left, right)` from `sql/logical_operator.py`. -/
structure PlannerCondition where
  sign : String
  left : Operand
  right : Operand
deriving DecidableEq

/-- The parts of a `ScanOperator` that `implement_scan` reads:
`table_name`, the catalog column list `columns`, and the optional
where-`condition`. -/
structure ScanNode where
  table_name : String
  columns : List String
  condition : Option PlannerCondition
deriving DecidableEq

/-- A row of the `catalog_index` relation: an index's name, the table it
covers, and its ordered column list. -/
structure CatalogIndexForm where
  index_name : String
  table_name : String
  columns : List String
deriving DecidableEq

/-- The physical access path chosen by `SelectImplementation.implement_scan`:
`TableScan(table_name, condition)`, `IndexScan(index_name, condition)` or
`CoveredIndexScan(index_name, condition)`. -/
inductive ScanChoice where
  | tableScan (table_name : String) (condition : Option PlannerCondition)
  | indexScan (index_name : String) (condition : PlannerCondition)
  | coveredIndexScan (index_name : String) (condition : PlannerCondition)
deriving DecidableEq

/-- `SelectImplementation.implement_scan` (planner.py lines 405-472), with the
catalog passed explicitly.  Steps, in source order: filter `catalog_index` by
the node's table; guard (no index or no condition -> TableScan); collect the
`TableColumn` sides of the condition; two or more -> `NotImplementedError`;
zero -> TableScan; an index is a candidate iff the `matched` flag survives the
nested loop - for each condition column the inner loop breaks `matched` to
`False` at the first index column differing from it, so a candidate must have
every index column equal to the predicate column; no candidate -> TableScan;
the first candidate whose column count equals the node's column count ->
CoveredIndexScan; otherwise the candidate with the shortest column list ->
IndexScan. -/
def implement_scan (catalog_index : List CatalogIndexForm) (node : ScanNode) :
    Except StorageErr ScanChoice :=
  let results := catalog_index.filter (fun r => r.table_name == node.table_name)
  match results.length == 0, node.condition with
  | true, c => .ok (.tableScan node.table_name c)
  | false, none => .ok (.tableScan node.table_name none)
  | false, some cond =>
    let condition_columns :=
      (match cond.left with
        | .tableColumn t c => [(t, c)]
        | .constant _ => []) ++
      (match cond.right with
        | .tableColumn t c => [(t, c)]
        | .constant _ => [])
    if condition_columns.length ≥ 2 then
      .error (.notImplementedError "not supported multi-columns predicates.")
    else if condition_columns.length == 0 then
      .ok (.tableScan node.table_name (some cond))
    else
      let candidate_indexes := results.filter (fun form =>
        condition_columns.all (fun cc =>
          form.columns.all (fun index_column => cc.2 == index_column)))
      match candidate_indexes with
      | [] => .ok (.tableScan node.table_name (some cond))
      | first :: rest =>
        match candidate_indexes.find?
            (fun ci => node.columns.length == ci.columns.length) with
        | some covered => .ok (.coveredIndexScan covered.index_name cond)
        | none =>
          let shortest := rest.foldl
            (fun s ci => if ci.columns.length < s.columns.length then ci else s)
            first
          .ok (.indexScan shortest.index_name cond)

/-- C9: with a single-column predicate on column `a`, the multi-column index
`ix_ab(a, b)` on the same table is NOT retained as a candidate - the planner
falls back to TableScan - because the nested matching loop sets `matched` to
`False` as soon as any index column (here `b`) differs from the predicate
column, i.e. it demands that every index column equal the predicate column
rather than applying the leading-column rule the claim (and the code's own
comment, which says `index(t1.a, t1.b, t1.c)` with a predicate on `t1.a`
matches) describes.  The second conjunct shows the flip side of the same
loop: only an index whose column list is exactly `[a]` is retained and
chosen as IndexScan. -/
theorem C9_leading_column_index_rejected :
    implement_scan [⟨"ix_ab", "t", ["a", "b"]⟩]
        ⟨"t", ["a", "b", "c"], some ⟨"=", .tableColumn "t" "a", .constant 1⟩⟩ =
      .ok (.tableScan "t" (some ⟨"=", .tableColumn "t" "a", .constant 1⟩)) ∧
    implement_scan [⟨"ix_a", "t", ["a"]⟩]
        ⟨"t", ["a", "b", "c"], some ⟨"=", .tableColumn "t" "a", .constant 1⟩⟩ =
      .ok (.indexScan "ix_a" ⟨"=", .tableColumn "t" "a", .constant 1⟩) := by
  exact ⟨rfl, rfl⟩

/-! ## B+ tree (storage/bplus_tree.py)

In-memory model: the node arena is a list indexed by `pageno` (Python node
objects compare and hash by `pageno`, and every node in these scenarios is
allocated in memory with `loaded=True`, so `load_node` is the identity and
object identity coincides with `pageno` equality).  Keys are `Nat`; the
source compares keys with `<=`/`<` and asserts `tuple(left.keys) <
tuple(right.keys)`, Python's lexicographic order.  The unbounded Python
recursions (`find_leaf_node`'s two while loops, `_find_parent`, `_split`'s
recursion into the parent) take explicit fuel. -/

structure BPlusTreeNode where
  is_leaf : Bool
  keys : List Nat
  children : List Nat
  values : List Nat
  next_leaf : Option Nat
  pageno : Nat
deriving DecidableEq

structure BPlusTree where
  nodes : List BPlusTreeNode
  root : Nat
  node_count : Nat
deriving DecidableEq

/-- Python tuple comparison `tuple(a) < tuple(b)`: lexicographic, a strict
prefix is smaller. -/
def tupleLt : List Nat → List Nat → Bool
  | [], [] => false
  | [], _ :: _ => true
  | _ :: _, [] => false
  | a :: ks, b :: ls => if a < b then true else if b < a then false else tupleLt ks ls

/-- `BPlusTree._find_leftmost_key_index`: the first index `i` with
`key <= keys[i]`, else `len(keys)`. -/
def findLeftmostKeyIndex : List Nat → Nat → Nat
  | [], _ => 0
  | k :: rest, key => if key ≤ k then 0 else findLeftmostKeyIndex rest key + 1

/-- `BPlusTree._find_rightmost_key_index`: the first index `i` with
`keys[i] > key`, else `len(keys)`. -/
def findRightmostKeyIndex : List Nat → Nat → Nat
  | [], _ => 0
  | k :: rest, key => if k ≤ key then findRightmostKeyIndex rest key + 1 else 0

/-- `BPlusTreeNode.get_child`: `children[i]`, falling back to `next_leaf`
when `i` is out of range. -/
def BPlusTreeNode.get_child (n : BPlusTreeNode) (i : Nat) : Option Nat :=
  if i ≥ n.children.length then n.next_leaf else n.children[i]?

/-- First loop of `BPlusTree.find_leaf_node`
(`while node and not node.is_leaf`): descend from `root` by
`_find_leftmost_key_index`, taking `children[-1]` when the index runs off the
keys and `get_child(index)` otherwise; `.ok none` is Python's `node = None`
exit. -/
def findLeafDescend (t : BPlusTree) (key : Nat) :
    Nat → Option Nat → Except StorageErr (Option Nat)
  | 0, _ => .error .fuelExhausted
  | _, none => .ok none
  | fuel + 1, some p =>
    match t.nodes[p]? with
    | none => .error .indexError
    | some node =>
      if node.is_leaf then .ok (some p)
      else
        let index := findLeftmostKeyIndex node.keys key
        if index ≥ node.keys.length then
          match node.children.getLast? with
          | none => .error .indexError
          | some c => findLeafDescend t key fuel (some c)
        else
          findLeafDescend t key fuel (node.get_child index)

/-- Second loop of `BPlusTree.find_leaf_node`
(`while node.keys and node.keys[-1] < key and node.next_leaf`): walk the
`next_leaf` chain rightwards. -/
def findLeafWalk (t : BPlusTree) (key : Nat) : Nat → Nat → Except StorageErr Nat
  | 0, _ => .error .fuelExhausted
  | fuel + 1, p =>
    match t.nodes[p]? with
    | none => .error .indexError
    | some node =>
      match node.keys.getLast?, node.next_leaf with
      | some last, some nl =>
        if last < key then findLeafWalk t key fuel nl else .ok p
      | _, _ => .ok p

/-- `BPlusTree.find_leaf_node`; when the descent ends on `None`, the second
loop's `node.keys` raises AttributeError. -/
def find_leaf_node (t : BPlusTree) (key : Nat) (fuel : Nat) : Except StorageErr Nat :=
  match findLeafDescend t key fuel (some t.root) with
  | .error e => .error e
  | .ok none => .error .attributeError
  | .ok (some p) => findLeafWalk t key fuel p

/-- The `for child in current.children` loop of `BPlusTree._find_parent`:
the first child whose `children` contain the target. -/
def findChildWithTarget (t : BPlusTree) : List Nat → Nat → Except StorageErr (Option Nat)
  | [], _ => .ok none
  | c :: rest, target =>
    match t.nodes[c]? with
    | none => .error .indexError
    | some child =>
      if child.children.contains target then .ok (some c)
      else findChildWithTarget t rest target

/-- `BPlusTree._find_parent(current, target)`: returns `current` when it is a
leaf or directly contains `target`; otherwise recurses into the first child
containing `target`; `.ok none` is Python's `return None` (no child two
levels down contains the target). -/
def findParent (t : BPlusTree) : Nat → Nat → Nat → Except StorageErr (Option Nat)
  | 0, _, _ => .error .fuelExhausted
  | fuel + 1, current, target =>
    match t.nodes[current]? with
    | none => .error .indexError
    | some cur =>
      if cur.is_leaf || cur.children.contains target then .ok (some current)
      else
        match findChildWithTarget t cur.children target with
        | .error e => .error e
        | .ok none => .ok none
        | .ok (some c) => findParent t fuel c target

/-- `BPlusTree._split(node)`, in source order: allocate the right node (it
takes `keys/children/values[middle:]` and the old `next_leaf`), shrink the
node in place into the left node (`[:middle]`, `next_leaf` pointing at the
right node); `assert` both halves non-empty and `tuple(left.keys) <
tuple(right.keys)`; then either grow a new root, or locate the parent with
`_find_parent` (a `None` parent raises AttributeError at
`parent.children.index(node)`, an absent child raises ValueError), insert
the separator `right.keys[0]` at `index` and the right node at `index + 1`,
and recurse when the parent now exceeds 10 keys. -/
def splitNode (t : BPlusTree) : Nat → Nat → Except StorageErr BPlusTree
  | 0, _ => .error .fuelExhausted
  | fuel + 1, p =>
    match t.nodes[p]? with
    | none => .error .indexError
    | some node =>
      let middle_index := node.keys.length / 2
      let rightPageno := t.node_count
      let right : BPlusTreeNode :=
        ⟨node.is_leaf, node.keys.drop middle_index, node.children.drop middle_index,
         node.values.drop middle_index, node.next_leaf, rightPageno⟩
      let left : BPlusTreeNode :=
        ⟨node.is_leaf, node.keys.take middle_index, node.children.take middle_index,
         node.values.take middle_index, some rightPageno, p⟩
      if !(decide (0 < left.keys.length) && decide (0 < right.keys.length)) then
        .error .assertionError
      else if !(tupleLt left.keys right.keys) then
        .error .assertionError
      else
        let t1 : BPlusTree := ⟨(t.nodes.set p left) ++ [right], t.root, t.node_count + 1⟩
        if p == t.root then
          let rootPageno := t1.node_count
          let new_root : BPlusTreeNode :=
            ⟨false, [right.keys.headD 0], [p, rightPageno], [], none, rootPageno⟩
          .ok ⟨t1.nodes ++ [new_root], rootPageno, t1.node_count + 1⟩
        else
          match findParent t1 fuel t1.root p with
          | .error e => .error e
          | .ok none => .error .attributeError
          | .ok (some parentP) =>
            match t1.nodes[parentP]? with
            | none => .error .indexError
            | some parent =>
              match parent.children.indexOf? p with
              | none => .error .valueError
              | some index =>
                let parent1 : BPlusTreeNode :=
                  ⟨parent.is_leaf,
                   parent.keys.take index ++ [right.keys.headD 0] ++ parent.keys.drop index,
                   parent.children.take (index + 1) ++ [rightPageno] ++
                     parent.children.drop (index + 1),
                   parent.values, parent.next_leaf, parent.pageno⟩
                let t2 : BPlusTree := ⟨t1.nodes.set parentP parent1, t1.root, t1.node_count⟩
                if parent1.keys.length > 10 then splitNode t2 fuel parentP
                else .ok t2

/-- `BPlusTree.insert(key, value)`: find the leaf, insert key and value at
`_find_rightmost_key_index`, split when the leaf exceeds 10 keys
(`_need_split`). -/
def BPlusTree.insert (t : BPlusTree) (key value fuel : Nat) : Except StorageErr BPlusTree :=
  match find_leaf_node t key fuel with
  | .error e => .error e
  | .ok leafP =>
    match t.nodes[leafP]? with
    | none => .error .indexError
    | some node =>
      let node1 : BPlusTreeNode :=
        ⟨node.is_leaf,
         node.keys.take (findRightmostKeyIndex node.keys key) ++ [key] ++
           node.keys.drop (findRightmostKeyIndex node.keys key),
         node.children,
         node.values.take (findRightmostKeyIndex node.keys key) ++ [value] ++
           node.values.drop (findRightmostKeyIndex node.keys key),
         node.next_leaf, node.pageno⟩
      let t1 : BPlusTree := ⟨t.nodes.set leafP node1, t.root, t.node_count⟩
      if node1.keys.length > 10 then splitNode t1 fuel leafP
      else .ok t1

/-- `BPlusTree.__init__` with no root node: one empty leaf, pageno 0. -/
def bplusTreeNew : BPlusTree :=
  ⟨[⟨true, [], [], [], none, 0⟩], 0, 1⟩

/-- Insert each key with itself as value (fuel 100 per insert, ample for
these tree sizes), stopping at the first raised error. -/
def insertSeq (t : BPlusTree) : List Nat → Except StorageErr BPlusTree
  | [] => .ok t
  | k :: rest =>
    match t.insert k k 100 with
    | .error e => .error e
    | .ok t1 => insertSeq t1 rest

/-- A 93-key insert sequence (all keys in 0..30).  After 92 inserts an
internal node holds the unsorted keys [23, 16, 17, 19, 21, 22, 23, 26, 28,
29]: internal splits leave the left node one child short
(`children[:middle]` next to `keys[:middle]`), so a later
`parent.children.index(node)` places a separator at the wrong key position.
The 93rd insert makes that node split with left half [23, 16, 17, 19, 21]
and right half [22, 23, 26, 27, 28, 29]. -/
def c6keys : List Nat :=
  [30, 23, 6, 28, 13, 24, 30, 10, 4, 23, 3, 28, 26, 25, 29, 12, 10, 11, 5, 18,
   26, 0, 23, 4, 22, 11, 29, 21, 22, 10, 27, 17, 16, 18, 29, 27, 1, 26, 23, 10,
   17, 13, 23, 16, 29, 6, 12, 19, 16, 29, 14, 3, 16, 11, 3, 6, 16, 17, 12, 25,
   19, 24, 8, 11, 9, 19, 13, 27, 16, 26, 8, 16, 7, 2, 26, 2, 0, 16, 20, 10,
   20, 19, 27, 23, 30, 22, 21, 30, 29, 20, 22, 22, 27]

set_option maxRecDepth 10000 in
/-- C6: the claimed split invariant fails.  First conjunct: on the 93-key
sequence `c6keys` the source's own assertion `tuple(left.keys) <
tuple(right.keys)` raises at a split that propagated into an internal node -
the left half is [23, 16, 17, 19, 21], the right [22, 23, 26, 27, 28, 29] -
because earlier internal splits misplace separators (the left node keeps
only `children[:middle]`, one child short of its keys).  Second conjunct:
even plain ascending inserts 1..316 crash with AttributeError - once the
tree reaches four levels, `_find_parent` (which looks at most two levels
below `current`) returns `None` for a splitting leaf and
`parent.children.index(node)` dereferences it.  Either way, no sequence
reaching deep split propagation maintains the claimed invariant; the
operations raise instead. -/
theorem C6_split_invariant_fails :
    insertSeq bplusTreeNew c6keys = .error .assertionError ∧
    insertSeq bplusTreeNew ((List.range 316).map (fun n => n + 1)) =
      .error .attributeError := by
  exact ⟨rfl, rfl⟩

end Imoocdb
